import Mathlib

/-!
# Kubernetes stage executor (`pkg/app/piped/executor/kubernetes/kubernetes.go`)

A shallow embedding of the manifest transformation and reconciliation code of the
executor, followed by theorems about it.

Conventions of the embedding.

* Go `error` values are terms of `GoError`; a `nil` error is `none`.
* The cluster client (`e.provider`) is a pair of state-passing functions over an
  arbitrary cluster state `σ`, so that the outcome of a call may depend on every
  earlier call.
* Every function that talks to the cluster or to the log persister returns the
  chronological list of the events it emitted (cluster calls and log lines).
  A log line is recorded as its level, its format string and its arguments.
* Go slices are lists, Go `int` lengths and counters are natural numbers (the code
  only counts elements of a slice, so no overflow can occur).
-/

namespace Kubernetes

/-! ## Errors -/

/-- Go error values: a package-level sentinel (compared by identity), an error made by
`fmt.Errorf` without `%w`, and an error made by `fmt.Errorf` with `%w` around another
error (whose message already contains the wrapped error's text). -/
inductive GoError where
  | sentinel (name : String)
  | errorf (msg : String)
  | wrapf (msg : String) (inner : GoError)
  deriving DecidableEq, Repr

/-- The text of an error (`err.Error()`). -/
def GoError.Error : GoError → String
  | .sentinel name => name
  | .errorf msg => msg
  | .wrapf msg _ => msg

/-- Go `errors.Is(err, target)`: `err` or one of the errors it wraps is `target`. -/
def GoError.Is : GoError → GoError → Bool
  | .wrapf msg inner, target =>
      decide (GoError.wrapf msg inner = target) || GoError.Is inner target
  | e, target => decide (e = target)

/-- Modelled from the spec: the declaration of `provider.ErrNotFound` is not part of the
sources; the cluster client "must return a distinguishable not-found condition", which
the code tests with `errors.Is(err, provider.ErrNotFound)`. -/
def ErrNotFound : GoError := .sentinel "not found"

/-- Go `%d` of a non-negative integer. -/
def fmtInt (n : Nat) : String := toString n

/-! ## Resource keys and manifests -/

/-- Modelled from the spec: `provider.ResourceKey`, "identity of a cluster resource:
{apiVersion, kind, namespace, name}". -/
structure ResourceKey where
  APIVersion : String
  Kind : String
  Namespace : String
  Name : String
  deriving DecidableEq, Repr

/-- A node of an unstructured document. An object is a list of fields; a field is
looked up by the first entry that carries its name. -/
inductive Value where
  | null
  | bool (b : Bool)
  | num (n : Int)
  | str (s : String)
  | list (items : List Value)
  | obj (fields : List (String × Value))

/-- Modelled from the spec: `provider.Manifest`, "a structured, mutable-in-place
document plus its ResourceKey". `Body` is the root object of the document. -/
structure Manifest where
  Key : ResourceKey
  Body : List (String × Value)

/-! ## Events -/

inductive LogLevel where
  | info
  | success
  | error
  deriving DecidableEq, Repr

/-- An argument of a log line: `%d` of a number, `%q` of a string, `%s` of the
`ReadableString()` of a resource key, `%v` of an error. -/
inductive LogArg where
  | int (n : Nat)
  | quoted (s : String)
  | readable (k : ResourceKey)
  | err (e : GoError)
  deriving DecidableEq, Repr

/-- What a run emits, in order: calls on the cluster client and lines handed to the log
persister. -/
inductive Event where
  | applyManifest (m : Manifest)
  | delete (k : ResourceKey)
  | log (level : LogLevel) (format : String) (args : List LogArg)

/-- The cluster client `e.provider`, restricted to the two methods the reconciler uses.
Each call takes the cluster state and returns the next state and the call's error. -/
structure Provider (σ : Type) where
  ApplyManifest : σ → Manifest → σ × Option GoError
  Delete : σ → ResourceKey → σ × Option GoError

/-- The outcome of a reconciler run. -/
structure Run (σ : Type) where
  events : List Event
  cluster : σ
  result : Option GoError

/-- The manifests on which `ApplyManifest` was called, in call order. -/
def applyCalls : List Event → List Manifest
  | [] => []
  | .applyManifest m :: rest => m :: applyCalls rest
  | _ :: rest => applyCalls rest

/-- The resource keys on which `Delete` was called, in call order. -/
def deleteCalls : List Event → List ResourceKey
  | [] => []
  | .delete k :: rest => k :: deleteCalls rest
  | _ :: rest => deleteCalls rest

/-! ## Apply / delete reconciler -/

/-- The `for _, m := range manifests` loop of `applyManifests`. -/
def applyLoop {σ : Type} (p : Provider σ) : List Manifest → σ → Run σ
  | [], c => { events := [], cluster := c, result := none }
  | m :: rest, c =>
    match p.ApplyManifest c m with
    | (c1, some err) =>
      { events := [.applyManifest m,
                   .log .error "Failed to apply manifest: %s (%v)" [.readable m.Key, .err err]],
        cluster := c1, result := some err }
    | (c1, none) =>
      let r := applyLoop p rest c1
      { r with events := .applyManifest m ::
                 .log .success "- applied manifest: %s" [.readable m.Key] :: r.events }

/-- The method `Executor.applyManifests`; `ns` is `e.config.Input.Namespace`. -/
def applyManifests {σ : Type} (p : Provider σ) (ns : String) (c : σ)
    (manifests : List Manifest) : Run σ :=
  let start : Event :=
    if ns = "" then
      .log .info "Start applying %d manifests" [.int manifests.length]
    else
      .log .info "Start applying %d manifests to %q namespace"
        [.int manifests.length, .quoted ns]
  let r := applyLoop p manifests c
  match r.result with
  | some err => { events := start :: r.events, cluster := r.cluster, result := some err }
  | none =>
    { events := start :: (r.events ++
        [.log .success "Successfully applied %d manifests" [.int manifests.length]]),
      cluster := r.cluster, result := none }

/-- The `for _, k := range resources` loop of `deleteResources`; the counter is
`deletedCount`, returned next to the emitted events and the final cluster state. -/
def deleteLoop {σ : Type} (p : Provider σ) : List ResourceKey → σ → Nat → List Event × σ × Nat
  | [], c, deletedCount => ([], c, deletedCount)
  | k :: rest, c, deletedCount =>
    match p.Delete c k with
    | (c1, none) =>
      let r := deleteLoop p rest c1 (deletedCount + 1)
      (.delete k :: .log .success "- deleted resource: %s" [.readable k] :: r.1, r.2)
    | (c1, some err) =>
      if err.Is ErrNotFound then
        let r := deleteLoop p rest c1 (deletedCount + 1)
        (.delete k :: .log .info "- no resource %s to delete" [.readable k] :: r.1, r.2)
      else
        let r := deleteLoop p rest c1 deletedCount
        (.delete k ::
          .log .error "- unable to delete resource: %s (%v)" [.readable k, .err err] :: r.1, r.2)

/-- The method `Executor.deleteResources`. -/
def deleteResources {σ : Type} (p : Provider σ) (c : σ) (resources : List ResourceKey) :
    Run σ :=
  let resourcesLen := resources.length
  if resourcesLen = 0 then
    { events := [.log .info "No resources to delete" []], cluster := c, result := none }
  else
    let start : Event := .log .info "Start deleting %d resources" [.int resources.length]
    let r := deleteLoop p resources c 0
    let deletedCount := r.2.2
    if deletedCount < resourcesLen then
      { events := start :: (r.1 ++
          [.log .info "Deleted %d/%d resources" [.int deletedCount, .int resourcesLen]]),
        cluster := r.2.1,
        result := some (.errorf
          ("unable to delete " ++ fmtInt (resourcesLen - deletedCount) ++ " resources")) }
    else
      { events := start :: (r.1 ++
          [.log .success "Successfully deleted %d resources" [.int resources.length]]),
        cluster := r.2.1, result := none }

/-! ## Reference runs used to state the reconciler's contract -/

/-- The errors the client returns when `ApplyManifest` is called on every manifest of
the list, one after the other, starting from cluster state `c`. -/
def applyOutcomes {σ : Type} (p : Provider σ) : σ → List Manifest → List (Option GoError)
  | _, [] => []
  | c, m :: rest => (p.ApplyManifest c m).2 :: applyOutcomes p (p.ApplyManifest c m).1 rest

/-- The errors the client returns when `Delete` is called on every key of the list, one
after the other, starting from cluster state `c`. -/
def deleteOutcomes {σ : Type} (p : Provider σ) : σ → List ResourceKey → List (Option GoError)
  | _, [] => []
  | c, k :: rest => (p.Delete c k).2 :: deleteOutcomes p (p.Delete c k).1 rest

/-- A `Delete` outcome that `deleteResources` counts as a success: no error, or an
error that is `ErrNotFound`. -/
def deleteSucceeded : Option GoError → Bool
  | none => true
  | some err => err.Is ErrNotFound

/-- The number of successes among the outcomes. -/
def successCount (outcomes : List (Option GoError)) : Nat :=
  outcomes.countP deleteSucceeded

/-- The state of the cluster after `Delete` has been called on every key of the list, one
after the other, starting from cluster state `c`. -/
def deleteFinalState {σ : Type} (p : Provider σ) : σ → List ResourceKey → σ
  | c, [] => c
  | c, k :: rest => deleteFinalState p (p.Delete c k).1 rest

/-- The line that `deleteResources` logs for a key after its `Delete` call returned the
given error. -/
def deleteReport (k : ResourceKey) : Option GoError → Event
  | none => .log .success "- deleted resource: %s" [.readable k]
  | some err =>
    if err.Is ErrNotFound then .log .info "- no resource %s to delete" [.readable k]
    else .log .error "- unable to delete resource: %s (%v)" [.readable k, .err err]

/-! ## Maps and names -/

/-- The well-known variant label key. -/
def variantLabel : String := "pipecd.dev/variant"

/-- Modelled from the spec: the constant `provider.KindDeployment` is not part of the
sources; it is "the primary workload kind, e.g. Deployment". -/
def KindDeployment : String := "Deployment"

/-- The constant `corev1.ServiceTypeClusterIP` of the Kubernetes API types. -/
def ServiceTypeClusterIP : String := "ClusterIP"

/-- Go `m[k]` with the found flag, on a map kept as a list of entries. -/
def lookupField {β : Type} (k : String) : List (String × β) → Option β
  | [] => none
  | (k1, v) :: rest => if k1 = k then some v else lookupField k rest

/-- Go `m[k] = v` on a map kept as a list of entries: the entry of `k` is replaced in
place, or added at the end when there is none. -/
def setField {β : Type} (k : String) (v : β) : List (String × β) → List (String × β)
  | [] => [(k, v)]
  | (k1, v1) :: rest => if k1 = k then (k, v) :: rest else (k1, v1) :: setField k v rest

/-- Go `m[k]` with the found flag on a `map[string]string` that may be nil (`none`). -/
def lookupLabel (k : String) (m : Option (List (String × String))) : Option String :=
  match m with
  | none => none
  | some entries => lookupField k entries

/-- The function `makeSuffixedName`. -/
def makeSuffixedName (name suffix : String) : String :=
  if suffix ≠ "" then name ++ "-" ++ suffix else name

/-! ## Typed objects

The fields of the Kubernetes API types that the executor reads or writes. A nil map or
nil pointer is `none`; a nil slice is the empty list. -/

structure ConfigMapVolumeSource where
  Name : String
  deriving DecidableEq, Repr

structure SecretVolumeSource where
  SecretName : String
  deriving DecidableEq, Repr

structure Volume where
  Name : String
  ConfigMap : Option ConfigMapVolumeSource
  Secret : Option SecretVolumeSource
  deriving DecidableEq, Repr

structure PodSpec where
  Volumes : List Volume
  deriving DecidableEq, Repr

structure PodTemplateSpec where
  Labels : Option (List (String × String))
  Spec : PodSpec
  deriving DecidableEq, Repr

structure LabelSelectorRequirement where
  Key : String
  Operator : String
  Values : List String
  deriving DecidableEq, Repr

structure LabelSelector where
  MatchLabels : Option (List (String × String))
  MatchExpressions : List LabelSelectorRequirement
  deriving DecidableEq, Repr

structure DeploymentSpec where
  Replicas : Option Int
  Selector : Option LabelSelector
  Template : PodTemplateSpec
  deriving DecidableEq, Repr

structure Deployment where
  Name : String
  Spec : DeploymentSpec
  deriving DecidableEq, Repr

/-- The field `ServiceType` is the Go field `Type`. -/
structure ServiceSpec where
  ServiceType : String
  Selector : Option (List (String × String))
  ExternalIPs : List String
  LoadBalancerIP : String
  LoadBalancerSourceRanges : List String
  deriving DecidableEq, Repr

structure Service where
  Name : String
  Spec : ServiceSpec
  deriving DecidableEq, Repr

/-- The two conversions between a manifest and a typed object of type `α`,
`Manifest.ConvertToStructuredObject` and `provider.ParseFromStructuredObject`. Their
code is not part of the sources, so the generators take them as a parameter. -/
structure Codec (α : Type) where
  ConvertToStructuredObject : Manifest → Except GoError α
  ParseFromStructuredObject : α → Except GoError Manifest

/-! ## Variant manifest generator -/

/-- The closure `updateService` of `generateVariantServiceManifests`. -/
def updateService (variant nameSuffix : String) (s : Service) : Service :=
  let selector : List (String × String) :=
    match s.Spec.Selector with
    | none => []
    | some entries => entries
  { Name := makeSuffixedName s.Name nameSuffix,
    Spec :=
      { ServiceType := ServiceTypeClusterIP,
        Selector := some (setField variantLabel variant selector),
        ExternalIPs := [],
        LoadBalancerIP := "",
        LoadBalancerSourceRanges := [] } }

/-- The `for _, m := range services` loop of `generateVariantServiceManifests`;
`manifests` is the slice built so far. -/
def serviceLoop (codec : Codec Service) (variant nameSuffix : String) :
    List Manifest → List Manifest → Except GoError (List Manifest)
  | [], manifests => .ok manifests
  | m :: rest, manifests =>
    match codec.ConvertToStructuredObject m with
    | .error err => .error err
    | .ok s =>
      match codec.ParseFromStructuredObject (updateService variant nameSuffix s) with
      | .error err =>
        .error (.wrapf ("failed to parse Service object to Manifest: " ++ err.Error) err)
      | .ok manifest => serviceLoop codec variant nameSuffix rest (manifests ++ [manifest])

/-- The function `generateVariantServiceManifests`. -/
def generateVariantServiceManifests (codec : Codec Service) (services : List Manifest)
    (variant nameSuffix : String) : Except GoError (List Manifest) :=
  serviceLoop codec variant nameSuffix services []

/-- The names of the given manifests: the key set of `cmNames` / `secretNames`. -/
def manifestNames (ms : List Manifest) : List String :=
  ms.map (fun m => m.Key.Name)

/-- The body of the loop over `pod.Spec.Volumes` in `updatePod`, for one volume. -/
def updateVolume (cmNames secretNames : List String) (nameSuffix : String) (v : Volume) :
    Volume :=
  let v1 : Volume :=
    match v.ConfigMap with
    | some cm =>
      if cm.Name ∈ cmNames then
        { v with ConfigMap := some { cm with Name := makeSuffixedName cm.Name nameSuffix } }
      else v
    | none => v
  match v1.Secret with
  | some s =>
    if s.SecretName ∈ secretNames then
      { v1 with Secret := some { s with SecretName := makeSuffixedName s.SecretName nameSuffix } }
    else v1
  | none => v1

/-- The closure `updatePod` of `generateVariantWorkloadManifests`. -/
def updatePod (cmNames secretNames : List String) (variant nameSuffix : String)
    (pod : PodTemplateSpec) : PodTemplateSpec :=
  let labels : List (String × String) :=
    match pod.Labels with
    | none => []
    | some entries => entries
  { Labels := some (setField variantLabel variant labels),
    Spec := { pod.Spec with
      Volumes := pod.Spec.Volumes.map (updateVolume cmNames secretNames nameSuffix) } }

/-- The end of a Go call that may panic: it returns a value, or it panics and returns
nothing to its caller. -/
inductive GoCall (α : Type) where
  | returned (value : α)
  | panicked (reason : String)

/-- The function `metav1.AddLabelToSelector` of the Kubernetes API machinery. With an
empty key it returns the selector pointer it was given; otherwise it creates
`selector.MatchLabels` when nil and stores the label in it, which dereferences the
pointer: on a nil selector the call panics. -/
def AddLabelToSelector (selector : Option LabelSelector) (labelKey labelValue : String) :
    GoCall (Option LabelSelector) :=
  if labelKey = "" then .returned selector
  else
    match selector with
    | none => .panicked "invalid memory address or nil pointer dereference"
    | some sel =>
      let labels : List (String × String) :=
        match sel.MatchLabels with
        | none => []
        | some entries => entries
      .returned (some { sel with MatchLabels := some (setField labelKey labelValue labels) })

/-- The closure `updateDeployment` of `generateVariantWorkloadManifests`;
`replicasCalculator` is `none` for a nil function. The call of
`metav1.AddLabelToSelector` on `d.Spec.Selector` is not guarded, so the closure panics
when the library call does. -/
def updateDeployment (cmNames secretNames : List String) (variant nameSuffix : String)
    (replicasCalculator : Option (Option Int → Int)) (d : Deployment) : GoCall Deployment :=
  let replicas : Option Int :=
    match replicasCalculator with
    | some f => some (f d.Spec.Replicas)
    | none => d.Spec.Replicas
  match AddLabelToSelector d.Spec.Selector variantLabel variant with
  | .panicked reason => .panicked reason
  | .returned selector =>
    .returned
      { Name := makeSuffixedName d.Name nameSuffix,
        Spec :=
          { Replicas := replicas,
            Selector := selector,
            Template := updatePod cmNames secretNames variant nameSuffix d.Spec.Template } }

/-- The `for _, m := range workloads` loop of `generateVariantWorkloadManifests`;
`manifests` is the slice built so far. -/
def workloadLoop (codec : Codec Deployment)
    (cmNames secretNames : List String) (variant nameSuffix : String)
    (replicasCalculator : Option (Option Int → Int)) :
    List Manifest → List Manifest → GoCall (Except GoError (List Manifest))
  | [], manifests => .returned (.ok manifests)
  | m :: rest, manifests =>
    if m.Key.Kind = KindDeployment then
      match codec.ConvertToStructuredObject m with
      | .error err => .returned (.error err)
      | .ok d =>
        match updateDeployment cmNames secretNames variant nameSuffix replicasCalculator d with
        | .panicked reason => .panicked reason
        | .returned d1 =>
          match codec.ParseFromStructuredObject d1 with
          | .error err => .returned (.error err)
          | .ok manifest =>
            workloadLoop codec cmNames secretNames variant nameSuffix replicasCalculator
              rest (manifests ++ [manifest])
    else
      .returned (.error (.errorf ("unsupported workload kind " ++ m.Key.Kind)))

/-- The function `generateVariantWorkloadManifests`. -/
def generateVariantWorkloadManifests (codec : Codec Deployment)
    (workloads configmaps secrets : List Manifest) (variant nameSuffix : String)
    (replicasCalculator : Option (Option Int → Int)) :
    GoCall (Except GoError (List Manifest)) :=
  workloadLoop codec (manifestNames configmaps) (manifestNames secrets)
    variant nameSuffix replicasCalculator workloads []

/-! ## Selector invariant guard -/

/-- The path `matchLabelsFields` of `checkVariantSelectorInWorkload`. -/
def matchLabelsFields : List String := ["spec", "selector", "matchLabels"]

/-- The path `labelsFields` of `checkVariantSelectorInWorkload`. -/
def labelsFields : List String := ["spec", "template", "metadata", "labels"]

/-- The function `checkVariantSelectorInWorkload`. The method `Manifest.GetNestedStringMap`, whose
code is not part of the sources, is the parameter `getNestedStringMap`; it returns the
map read at the path (`none` for a nil map) or an error. -/
def checkVariantSelectorInWorkload
    (getNestedStringMap :
      Manifest → List String → Except GoError (Option (List (String × String))))
    (m : Manifest) (variant : String) : Option GoError :=
  match getNestedStringMap m matchLabelsFields with
  | .error err => some err
  | .ok matchLabels =>
    match lookupLabel variantLabel matchLabels with
    | none =>
      some (.errorf ("missing " ++ variantLabel ++ " key in spec.selector.matchLabels"))
    | some value =>
      if value ≠ variant then
        some (.errorf ("require " ++ variant ++ " but got " ++ value ++ " for " ++
          variantLabel ++ " key in " ++ ".".intercalate matchLabelsFields))
      else
        match getNestedStringMap m labelsFields with
        | .error err => some err
        | .ok labels =>
          match lookupLabel variantLabel labels with
          | none =>
            some (.errorf
              ("missing " ++ variantLabel ++ " key in spec.template.metadata.labels"))
          | some value =>
            if value ≠ variant then
              some (.errorf ("require " ++ variant ++ " but got " ++ value ++ " for " ++
                variantLabel ++ " key in " ++ ".".intercalate labelsFields))
            else none

/-- The function `ensureVariantSelectorInWorkload`. The method `Manifest.AddStringMapValues`, whose
code is not part of the sources, is the parameter `addStringMapValues`; it returns the
document after the call next to the call's error. -/
def ensureVariantSelectorInWorkload
    (addStringMapValues :
      Manifest → List (String × String) → List String → Manifest × Option GoError)
    (m : Manifest) (variant : String) : Manifest × Option GoError :=
  let variantMap : List (String × String) := [(variantLabel, variant)]
  match addStringMapValues m variantMap ["spec", "selector", "matchLabels"] with
  | (m1, some err) => (m1, some err)
  | (m1, none) => addStringMapValues m1 variantMap ["spec", "template", "metadata", "labels"]

/-! ### The document accessors -/

/-- The value found by following `fields` from `v` through nested objects: `.ok none`
when a field on the way is absent, an error when a value on the way is not an object. -/
def Value.nested : Value → List String → Except GoError (Option Value)
  | v, [] => .ok (some v)
  | .obj fs, k :: rest =>
    match lookupField k fs with
    | none => .ok none
    | some child => child.nested rest
  | _, k :: _ => .error (.errorf ("accessor error: the parent of " ++ k ++ " is not an object"))

/-- The chain of nested objects that holds `x` at the end of `fields`. -/
def Value.build : List String → Value → Value
  | [], x => x
  | k :: rest, x => .obj [(k, Value.build rest x)]

/-- The value `v` with `x` stored at the end of `fields`: objects absent on the way are
created, an error when a value on the way is not an object. -/
def Value.setNested : Value → List String → Value → Except GoError Value
  | _, [], x => .ok x
  | .obj fs, k :: rest, x =>
    match lookupField k fs with
    | none => .ok (.obj (setField k (Value.build rest x) fs))
    | some child =>
      match child.setNested rest x with
      | .error err => .error err
      | .ok child1 => .ok (.obj (setField k child1 fs))
  | _, k :: _, _ =>
    .error (.errorf ("accessor error: the parent of " ++ k ++ " is not an object"))

/-- The fields of an object (no field for any other value). -/
def Value.fields : Value → List (String × Value)
  | .obj fs => fs
  | _ => []

/-- The entries of an object read as a string map; `none` when some value is not a
string. -/
def decodeStringMap : List (String × Value) → Option (List (String × String))
  | [] => some []
  | (k, .str s) :: rest =>
    match decodeStringMap rest with
    | some entries => some ((k, s) :: entries)
    | none => none
  | _ :: _ => none

/-- A string map as an object of string values. -/
def encodeStringMap (entries : List (String × String)) : Value :=
  .obj (entries.map (fun kv => (kv.1, Value.str kv.2)))

/-- Modelled from the spec: `Manifest.GetNestedStringMap` is not part of the sources. It
"reads" the string map at a path of the structured document: the nil map when the path
is absent, the map when the path holds an object of strings, and the error the source
checks for when the path cannot be read as a string map. -/
def Manifest.GetNestedStringMap (m : Manifest) (fields : List String) :
    Except GoError (Option (List (String × String))) :=
  match (Value.obj m.Body).nested fields with
  | .error err => .error err
  | .ok none => .ok none
  | .ok (some (.obj fs)) =>
    match decodeStringMap fs with
    | some entries => .ok (some entries)
    | none => .error (.errorf ("accessor error: " ++ ".".intercalate fields ++
        " holds a value that is not a string"))
  | .ok (some _) =>
    .error (.errorf ("accessor error: " ++ ".".intercalate fields ++ " is not a map"))

/-- The map `curMap` (empty when nil) with every entry of `values` stored in it. -/
def mergeStringMap (curMap : Option (List (String × String)))
    (values : List (String × String)) : List (String × String) :=
  values.foldl (fun acc kv => setField kv.1 kv.2 acc)
    (match curMap with
     | none => []
     | some entries => entries)

/-- Modelled from the spec: `Manifest.AddStringMapValues` is not part of the sources. It
must "additively merge the ... key/value into [the path] without disturbing other keys":
the map at the path is read (the error of the read is returned and the document is left
as it was), every given entry is stored in it, and the merged map is stored at the path,
which is created when absent. -/
def Manifest.AddStringMapValues (m : Manifest) (values : List (String × String))
    (fields : List String) : Manifest × Option GoError :=
  match m.GetNestedStringMap fields with
  | .error err => (m, some err)
  | .ok curMap =>
    match (Value.obj m.Body).setNested fields
        (encodeStringMap (mergeStringMap curMap values)) with
    | .error err => (m, some err)
    | .ok root => ({ m with Body := root.fields }, none)

/-! ## Manifest selector functions -/

/-- The function `findManifests`: the loop keeps the manifests of the given kind whose
name is the given name, or of any name when the given name is empty. -/
def findManifests (kind name : String) : List Manifest → List Manifest
  | [] => []
  | m :: rest =>
    if m.Key.Kind ≠ kind then findManifests kind name rest
    else if name ≠ "" ∧ m.Key.Name ≠ name then findManifests kind name rest
    else m :: findManifests kind name rest

/-- The type `config.K8sResourceReference`, as the code reads it: a kind and a name. -/
structure K8sResourceReference where
  Kind : String
  Name : String
  deriving DecidableEq, Repr

/-- The kind that `findWorkloadManifests` looks for on behalf of a reference. -/
def referenceKind (ref : K8sResourceReference) : String :=
  if ref.Kind ≠ "" then ref.Kind else KindDeployment

/-- The `for _, ref := range refs` loop of `findWorkloadManifests`; `workloads` is the
slice built so far. -/
def workloadRefLoop (manifests : List Manifest) :
    List K8sResourceReference → List Manifest → List Manifest
  | [], workloads => workloads
  | ref :: rest, workloads =>
    workloadRefLoop manifests rest
      (workloads ++ findManifests (referenceKind ref) ref.Name manifests)

/-- The function `findWorkloadManifests`. -/
def findWorkloadManifests (manifests : List Manifest) (refs : List K8sResourceReference) :
    List Manifest :=
  if refs.length = 0 then findManifests KindDeployment "" manifests
  else workloadRefLoop manifests refs []

/-! ## Duplication -/

/-- The function `duplicateManifest`. The method `Manifest.Duplicate`, whose code is not
part of the sources, is the parameter `duplicate`. -/
def duplicateManifest (duplicate : Manifest → String → Manifest) (m : Manifest)
    (nameSuffix : String) : Manifest :=
  duplicate m (makeSuffixedName m.Key.Name nameSuffix)

/-- The function `duplicateManifests`. -/
def duplicateManifests (duplicate : Manifest → String → Manifest) :
    List Manifest → String → List Manifest
  | [], _ => []
  | m :: rest, nameSuffix =>
    duplicateManifest duplicate m nameSuffix :: duplicateManifests duplicate rest nameSuffix

/-- The name field of the document, `metadata.name`, when it holds a string. -/
def Manifest.documentName (m : Manifest) : Option String :=
  match lookupField "metadata" m.Body with
  | some (.obj fs) =>
    match lookupField "name" fs with
    | some (.str name) => some name
    | _ => none
  | _ => none

/-- Modelled from the spec: `Manifest.Duplicate` is not part of the sources. It "produces
an independent deep copy whose ResourceKey.Name is updated and whose document name field
is updated identically": the key and the document are copied, the name of the key is
replaced, and `metadata.name` of the document is set to the same name. -/
def Manifest.Duplicate (m : Manifest) (name : String) : Manifest :=
  let metadata : List (String × Value) :=
    match lookupField "metadata" m.Body with
    | some v => v.fields
    | none => []
  { Key := { m.Key with Name := name },
    Body := setField "metadata" (.obj (setField "name" (.str name) metadata)) m.Body }

/-! ## Manifest loading -/

/-- The arguments of `provider.NewProvider` that identify where a manifest source reads
from; `ι` is the type of `e.config.Input`. -/
structure ProviderConfig (ι : Type) where
  AppName : String
  AppDir : String
  RepoDir : String
  ConfigFilename : String
  Input : ι

/-- The fields of the executor that manifest loading reads: of `e.Deployment` the
application id and name, the hash of the triggering commit, the running commit hash, the
git path and the configuration file name; the two checkouts `e.RepoDir` and
`e.RunningRepoDir`; and `e.config.Input`. -/
structure ExecutorInput (ι : Type) where
  ApplicationId : String
  ApplicationName : String
  TriggerCommitHash : String
  RunningCommitHash : String
  GitPath : String
  ConfigFilename : String
  RepoDir : String
  RunningRepoDir : String
  Input : ι

/-- The two methods of `provider.AppManifestsCache` over a shared cache in state `κ`;
both take the application id and the commit hash. Their code is not part of the sources,
so the loaders take them as a parameter. -/
structure ManifestsCache (κ : Type) where
  Get : κ → String → String → Option (List Manifest)
  Put : κ → String → String → List Manifest → κ

/-- What a loader does, in order. -/
inductive LoadEvent (ι : Type) where
  | cacheGet (appID commit : String)
  | cachePut (appID commit : String) (manifests : List Manifest)
  | loadManifests (provider : ProviderConfig ι)

/-- The outcome of a loader run: the events, the cache and manifest source states after
the run, and the returned manifests or error. -/
structure LoadRun (ι κ σ : Type) where
  events : List (LoadEvent ι)
  cache : κ
  source : σ
  result : Except GoError (List Manifest)

/-- The provider that `Execute` stores in `e.provider`; `filepathJoin` is
`filepath.Join`. -/
def executeProvider {ι : Type} (filepathJoin : String → String → String)
    (e : ExecutorInput ι) : ProviderConfig ι :=
  { AppName := e.ApplicationName,
    AppDir := filepathJoin e.RepoDir e.GitPath,
    RepoDir := e.RepoDir,
    ConfigFilename := e.ConfigFilename,
    Input := e.Input }

/-- The method `Executor.loadManifests`. `provider` is `e.provider`; `source cfg` is
`LoadManifests` of the provider built from `cfg`, a state-passing function over the
state `σ` of the manifest source. -/
def loadManifests {ι κ σ : Type} (cache : ManifestsCache κ)
    (source : ProviderConfig ι → σ → σ × Except GoError (List Manifest))
    (e : ExecutorInput ι) (provider : ProviderConfig ι) (k : κ) (s : σ) : LoadRun ι κ σ :=
  match cache.Get k e.ApplicationId e.TriggerCommitHash with
  | some manifests =>
    { events := [.cacheGet e.ApplicationId e.TriggerCommitHash],
      cache := k, source := s, result := .ok manifests }
  | none =>
    match source provider s with
    | (s1, .error err) =>
      { events := [.cacheGet e.ApplicationId e.TriggerCommitHash, .loadManifests provider],
        cache := k, source := s1, result := .error err }
    | (s1, .ok manifests) =>
      { events := [.cacheGet e.ApplicationId e.TriggerCommitHash, .loadManifests provider,
                   .cachePut e.ApplicationId e.TriggerCommitHash manifests],
        cache := cache.Put k e.ApplicationId e.TriggerCommitHash manifests,
        source := s1, result := .ok manifests }

/-- The provider that `loadRunningManifests` builds on a cache miss. -/
def runningProvider {ι : Type} (filepathJoin : String → String → String)
    (e : ExecutorInput ι) : ProviderConfig ι :=
  { AppName := e.ApplicationName,
    AppDir := filepathJoin e.RepoDir e.GitPath,
    RepoDir := e.RunningRepoDir,
    ConfigFilename := e.ConfigFilename,
    Input := e.Input }

/-- The method `Executor.loadRunningManifests`. -/
def loadRunningManifests {ι κ σ : Type} (cache : ManifestsCache κ)
    (source : ProviderConfig ι → σ → σ × Except GoError (List Manifest))
    (filepathJoin : String → String → String)
    (e : ExecutorInput ι) (k : κ) (s : σ) : LoadRun ι κ σ :=
  let runningCommit := e.RunningCommitHash
  if runningCommit = "" then
    { events := [], cache := k, source := s,
      result := .error (.errorf "unable to determine running commit") }
  else
    match cache.Get k e.ApplicationId runningCommit with
    | some manifests =>
      { events := [.cacheGet e.ApplicationId runningCommit],
        cache := k, source := s, result := .ok manifests }
    | none =>
      match source (runningProvider filepathJoin e) s with
      | (s1, .error err) =>
        { events := [.cacheGet e.ApplicationId runningCommit,
                     .loadManifests (runningProvider filepathJoin e)],
          cache := k, source := s1, result := .error err }
      | (s1, .ok manifests) =>
        { events := [.cacheGet e.ApplicationId runningCommit,
                     .loadManifests (runningProvider filepathJoin e),
                     .cachePut e.ApplicationId runningCommit manifests],
          cache := cache.Put k e.ApplicationId runningCommit manifests,
          source := s1, result := .ok manifests }

/-- The provider configurations whose `LoadManifests` was called, in call order. -/
def loadCalls {ι : Type} : List (LoadEvent ι) → List (ProviderConfig ι)
  | [] => []
  | .loadManifests provider :: rest => provider :: loadCalls rest
  | _ :: rest => loadCalls rest

/-- The error `context.Canceled` of the Go standard library, which a cluster call returns
when the execution context it was given has been cancelled. -/
def ErrCanceled : GoError := .sentinel "context canceled"

/-! ## Concrete inputs -/

/-- A resource key of the given kind and name in the default namespace. -/
def mkKey (kind name : String) : ResourceKey :=
  { APIVersion := "v1", Kind := kind, Namespace := "default", Name := name }

/-- A manifest of the given kind and name with an empty document. -/
def mkManifest (kind name : String) : Manifest :=
  { Key := mkKey kind name, Body := [] }

/-- A cluster client whose state counts the calls made so far. `ApplyManifest` fails on
every manifest named "broken"; `Delete` reports `ErrNotFound` for the resource named
"absent" and a permission error for the resource named "locked". -/
def sampleProvider : Provider Nat where
  ApplyManifest := fun c m =>
    if m.Key.Name = "broken" then (c + 1, some (.errorf "admission webhook denied"))
    else (c + 1, none)
  Delete := fun c k =>
    if k.Name = "absent" then (c + 1, some ErrNotFound)
    else if k.Name = "locked" then (c + 1, some (.errorf "forbidden"))
    else (c + 1, none)

/-- A typed Deployment "web" with two labels, one selector key and three volumes: one on
the ConfigMap "web-cfg", one on the Secret "web-tls" and one on the ConfigMap "shared"
that does not belong to the application. -/
def webDeployment : Deployment :=
  { Name := "web",
    Spec :=
      { Replicas := some 3,
        Selector := some { MatchLabels := some [("app", "web")], MatchExpressions := [] },
        Template :=
          { Labels := some [("app", "web"), ("tier", "front")],
            Spec := { Volumes :=
              [ { Name := "config", ConfigMap := some { Name := "web-cfg" }, Secret := none },
                { Name := "tls", ConfigMap := none, Secret := some { SecretName := "web-tls" } },
                { Name := "shared", ConfigMap := some { Name := "shared" }, Secret := none } ] } } } }

/-- A typed Service "web" of type LoadBalancer with external addresses. -/
def webService : Service :=
  { Name := "web",
    Spec :=
      { ServiceType := "LoadBalancer",
        Selector := some [("app", "web")],
        ExternalIPs := ["203.0.113.7"],
        LoadBalancerIP := "203.0.113.8",
        LoadBalancerSourceRanges := ["198.51.100.0/24"] } }

/-- A typed Deployment "legacy" written without `spec.selector`: its selector pointer is
nil. -/
def legacyDeployment : Deployment :=
  { Name := "legacy",
    Spec :=
      { Replicas := none,
        Selector := none,
        Template := { Labels := some [("app", "legacy")], Spec := { Volumes := [] } } } }

/-- A codec for concrete inputs: the manifest named "web" converts to `webDeployment`,
the manifest named "legacy" to `legacyDeployment`, any other manifest fails to convert; a
typed Deployment is rendered as a manifest that carries its name. -/
def sampleDeploymentCodec : Codec Deployment where
  ConvertToStructuredObject := fun m =>
    if m.Key.Name = "web" then .ok webDeployment
    else if m.Key.Name = "legacy" then .ok legacyDeployment
    else .error (.errorf "cannot unmarshal the manifest into a Deployment")
  ParseFromStructuredObject := fun d =>
    .ok { Key := mkKey "Deployment" d.Name,
          Body := [("metadata", .obj [("name", .str d.Name)])] }

/-- A codec for concrete inputs: the manifest named "web" converts to `webService`, any
other manifest fails to convert; a typed Service is rendered as a manifest that carries
its name. -/
def sampleServiceCodec : Codec Service where
  ConvertToStructuredObject := fun m =>
    if m.Key.Name = "web" then .ok webService
    else .error (.errorf "cannot unmarshal the manifest into a Service")
  ParseFromStructuredObject := fun s =>
    .ok { Key := mkKey "Service" s.Name,
          Body := [("metadata", .obj [("name", .str s.Name)])] }

/-- A Deployment document whose selector has no variant label and whose pod template is
labelled with the variant "primary". -/
def plainWorkload : Manifest :=
  { Key := mkKey "Deployment" "web",
    Body :=
      [("spec", .obj
        [("replicas", .num 2),
         ("selector", .obj [("matchLabels", .obj [("app", .str "web")])]),
         ("template", .obj [("metadata", .obj [("labels", .obj
            [("app", .str "web"), ("pipecd.dev/variant", .str "primary")])])])])] }

/-- A Deployment document labelled with the variant "canary" at both paths. -/
def canaryWorkload : Manifest :=
  { Key := mkKey "Deployment" "web-canary",
    Body :=
      [("spec", .obj
        [("selector", .obj [("matchLabels", .obj
            [("app", .str "web"), ("pipecd.dev/variant", .str "canary")])]),
         ("template", .obj [("metadata", .obj [("labels", .obj
            [("app", .str "web"), ("pipecd.dev/variant", .str "canary")])])])])] }

/-- A Deployment document whose selector says "canary" and whose pod template says
"baseline". -/
def mixedWorkload : Manifest :=
  { Key := mkKey "Deployment" "web",
    Body :=
      [("spec", .obj
        [("selector", .obj [("matchLabels", .obj [("pipecd.dev/variant", .str "canary")])]),
         ("template", .obj [("metadata", .obj [("labels", .obj
            [("pipecd.dev/variant", .str "baseline")])])])])] }

/-- A document without a `spec`. -/
def emptyWorkload : Manifest :=
  { Key := mkKey "Deployment" "web", Body := [] }

/-- A document whose `spec.selector.matchLabels` is a string instead of a map. -/
def malformedWorkload : Manifest :=
  { Key := mkKey "Deployment" "web",
    Body := [("spec", .obj [("selector", .obj [("matchLabels", .str "app=web")])])] }

/-- A cluster client whose context is cancelled after the first call: the first `Delete`
succeeds and every later one returns `context.Canceled`. -/
def cancellingProvider : Provider Nat where
  ApplyManifest := fun c _ => (c + 1, if c = 0 then none else some ErrCanceled)
  Delete := fun c _ => (c + 1, if c = 0 then none else some ErrCanceled)

/-- Modelled from the spec: the cache behind `provider.AppManifestsCache`, a "mapping from
(application identifier, source-control commit hash) to a ManifestSet snapshot" in which
a `Get` after a `Put` with the same keys returns what was stored and a `Get` for an unseen
key reports a miss. The newest entry of a key is the one found. -/
def listCache : ManifestsCache (List ((String × String) × List Manifest)) where
  Get := fun k appID commit =>
    (k.find? (fun entry => decide (entry.1 = (appID, commit)))).map (fun entry => entry.2)
  Put := fun k appID commit manifests => ((appID, commit), manifests) :: k

/-- A stand-in for `filepath.Join` at concrete inputs. -/
def sampleJoin (dir rel : String) : String := dir ++ "/" ++ rel

/-- A manifest source for concrete inputs whose state counts the calls: the application
directory of the working checkout renders the Deployment "web" and the ConfigMap
"web-cfg", the application directory of the checkout of the running commit renders the
Deployment "web" alone, and any other directory fails. -/
def sampleSource (cfg : ProviderConfig Unit) (calls : Nat) :
    Nat × Except GoError (List Manifest) :=
  if cfg.AppDir = "/work/repo/app" then
    (calls + 1, .ok [mkManifest "ConfigMap" "web-cfg", mkManifest "Deployment" "web"])
  else if cfg.AppDir = "/work/running/app" then
    (calls + 1, .ok [mkManifest "Deployment" "web"])
  else (calls + 1, .error (.errorf "no such directory"))

/-- An executor input: the commit "c2" is being deployed from the working checkout
"/work/repo", the commit "c1" is running and checked out at "/work/running". -/
def sampleExecutor : ExecutorInput Unit :=
  { ApplicationId := "app-1", ApplicationName := "web",
    TriggerCommitHash := "c2", RunningCommitHash := "c1",
    GitPath := "app", ConfigFilename := ".pipe.yaml",
    RepoDir := "/work/repo", RunningRepoDir := "/work/running", Input := () }

/-- The same executor input for a first deployment: no commit is running. -/
def firstDeployExecutor : ExecutorInput Unit :=
  { sampleExecutor with RunningCommitHash := "" }

/-- A manifest set in apply order: a ConfigMap, two Deployments and a Service. -/
def sampleManifests : List Manifest :=
  [mkManifest "ConfigMap" "web-cfg", mkManifest "Deployment" "web",
   mkManifest "Service" "web", mkManifest "Deployment" "api"]

/-! ## Theorems: apply / delete reconciler -/

theorem applyCalls_append (xs ys : List Event) :
    applyCalls (xs ++ ys) = applyCalls xs ++ applyCalls ys := by
  induction xs with
  | nil => rfl
  | cons x xs ih => cases x <;> simp [applyCalls, ih]

theorem deleteCalls_append (xs ys : List Event) :
    deleteCalls (xs ++ ys) = deleteCalls xs ++ deleteCalls ys := by
  induction xs with
  | nil => rfl
  | cons x xs ih => cases x <;> simp [deleteCalls, ih]

theorem applyLoop_first_failure {σ : Type} (p : Provider σ) :
    ∀ (ms : List Manifest) (c : σ) (k : Nat) (e : GoError), k < ms.length →
      (∀ i, i < k → (applyOutcomes p c ms)[i]? = some none) →
      (applyOutcomes p c ms)[k]? = some (some e) →
      applyCalls (applyLoop p ms c).events = ms.take (k + 1) ∧
        (applyLoop p ms c).result = some e := by
  intro ms
  induction ms with
  | nil => intro c k e hk; simp at hk
  | cons m rest ih =>
    intro c k e hk hbefore hat
    cases k with
    | zero =>
      simp only [applyOutcomes, List.getElem?_cons_zero, Option.some.injEq] at hat
      rcases hcall : p.ApplyManifest c m with ⟨c1, o⟩
      rw [hcall] at hat
      simp only at hat
      subst hat
      simp [applyLoop, hcall, applyCalls]
    | succ k =>
      have h0 := hbefore 0 (Nat.succ_pos k)
      simp only [applyOutcomes, List.getElem?_cons_zero, Option.some.injEq] at h0
      rcases hcall : p.ApplyManifest c m with ⟨c1, o⟩
      rw [hcall] at h0
      simp only at h0
      subst h0
      have hk1 : k < rest.length := by simpa using hk
      have hbefore1 : ∀ i, i < k → (applyOutcomes p c1 rest)[i]? = some none := by
        intro i hi
        have := hbefore (i + 1) (Nat.succ_lt_succ hi)
        simpa [applyOutcomes, hcall] using this
      have hat1 : (applyOutcomes p c1 rest)[k]? = some (some e) := by
        simpa [applyOutcomes, hcall] using hat
      obtain ⟨h1, h2⟩ := ih c1 k e hk1 hbefore1 hat1
      simp [applyLoop, hcall, applyCalls, h1, h2]

theorem applyLoop_no_failure {σ : Type} (p : Provider σ) :
    ∀ (ms : List Manifest) (c : σ), (∀ o, o ∈ applyOutcomes p c ms → o = none) →
      applyCalls (applyLoop p ms c).events = ms ∧ (applyLoop p ms c).result = none := by
  intro ms
  induction ms with
  | nil => intro c _; simp [applyLoop, applyCalls]
  | cons m rest ih =>
    intro c hall
    rcases hcall : p.ApplyManifest c m with ⟨c1, o⟩
    have h0 : o = none := by
      have := hall o (by simp [applyOutcomes, hcall])
      exact this
    subst h0
    have hrest : ∀ o, o ∈ applyOutcomes p c1 rest → o = none := by
      intro o ho
      exact hall o (by simp [applyOutcomes, hcall, ho])
    obtain ⟨h1, h2⟩ := ih c1 hrest
    simp [applyLoop, hcall, applyCalls, h1, h2]

/-- C1: `applyManifests` is fail-fast. When the manifest at position `k + 1` (index `k`)
is the first whose `ApplyManifest` fails, with error `e`, the calls made are exactly the
first `k + 1` manifests in sequence order and the result is `e`; when no call fails the
calls are exactly the whole sequence in order and the result is success. -/
theorem applyManifests_fail_fast {σ : Type} (p : Provider σ) (ns : String) (c : σ)
    (ms : List Manifest) :
    (∀ (k : Nat) (e : GoError), k < ms.length →
      (∀ i, i < k → (applyOutcomes p c ms)[i]? = some none) →
      (applyOutcomes p c ms)[k]? = some (some e) →
      applyCalls (applyManifests p ns c ms).events = ms.take (k + 1) ∧
        (applyManifests p ns c ms).result = some e) ∧
    ((∀ o, o ∈ applyOutcomes p c ms → o = none) →
      applyCalls (applyManifests p ns c ms).events = ms ∧
        (applyManifests p ns c ms).result = none) := by
  constructor
  · intro k e hk hbefore hat
    obtain ⟨h1, h2⟩ := applyLoop_first_failure p ms c k e hk hbefore hat
    unfold applyManifests
    simp only [h2]
    split_ifs <;> simp [applyCalls, h1]
  · intro hall
    obtain ⟨h1, h2⟩ := applyLoop_no_failure p ms c hall
    unfold applyManifests
    simp only [h2]
    split_ifs <;> simp [applyCalls, applyCalls_append, h1]

/-- C1, at a concrete input: the second of three manifests is the first to fail, so two
calls are made and the third manifest is never applied; with no failing manifest both
are applied. -/
theorem applyManifests_fail_fast_witness :
    (applyCalls (applyManifests sampleProvider "" 0
        [mkManifest "ConfigMap" "cfg", mkManifest "Deployment" "broken",
          mkManifest "Service" "web"]).events
        = [mkManifest "ConfigMap" "cfg", mkManifest "Deployment" "broken"] ∧
      (applyManifests sampleProvider "" 0
        [mkManifest "ConfigMap" "cfg", mkManifest "Deployment" "broken",
          mkManifest "Service" "web"]).result = some (.errorf "admission webhook denied")) ∧
    (applyCalls (applyManifests sampleProvider "prod" 0
        [mkManifest "ConfigMap" "cfg", mkManifest "Service" "web"]).events
        = [mkManifest "ConfigMap" "cfg", mkManifest "Service" "web"] ∧
      (applyManifests sampleProvider "prod" 0
        [mkManifest "ConfigMap" "cfg", mkManifest "Service" "web"]).result = none) :=
  ⟨(applyManifests_fail_fast sampleProvider "" 0
      [mkManifest "ConfigMap" "cfg", mkManifest "Deployment" "broken",
        mkManifest "Service" "web"]).1 1 (.errorf "admission webhook denied")
      (by decide)
      (by intro i hi; interval_cases i; rfl)
      (by rfl),
   (applyManifests_fail_fast sampleProvider "prod" 0
      [mkManifest "ConfigMap" "cfg", mkManifest "Service" "web"]).2
      (by intro o ho; simp [applyOutcomes, sampleProvider, mkManifest, mkKey] at ho; exact ho)⟩

theorem deleteLoop_calls {σ : Type} (p : Provider σ) :
    ∀ (ks : List ResourceKey) (c : σ) (n : Nat),
      deleteCalls (deleteLoop p ks c n).1 = ks := by
  intro ks
  induction ks with
  | nil => intro c n; rfl
  | cons k rest ih =>
    intro c n
    rcases hcall : p.Delete c k with ⟨c1, o⟩
    cases o with
    | none => simp [deleteLoop, hcall, deleteCalls, ih]
    | some err =>
      by_cases hnf : err.Is ErrNotFound = true
      · simp [deleteLoop, hcall, deleteCalls, ih, hnf]
      · simp [deleteLoop, hcall, deleteCalls, ih, hnf]

theorem deleteLoop_count {σ : Type} (p : Provider σ) :
    ∀ (ks : List ResourceKey) (c : σ) (n : Nat),
      (deleteLoop p ks c n).2.2 = n + successCount (deleteOutcomes p c ks) := by
  intro ks
  induction ks with
  | nil => intro c n; simp [deleteLoop, deleteOutcomes, successCount]
  | cons k rest ih =>
    intro c n
    rcases hcall : p.Delete c k with ⟨c1, o⟩
    have ih1 := fun m => ih c1 m
    simp only [successCount] at ih1 ⊢
    cases o with
    | none =>
      simp [deleteLoop, hcall, deleteOutcomes, ih1, deleteSucceeded]
      omega
    | some err =>
      by_cases hnf : err.Is ErrNotFound = true
      · simp [deleteLoop, hcall, deleteOutcomes, ih1, deleteSucceeded, hnf]
        omega
      · simp [deleteLoop, hcall, deleteOutcomes, ih1, deleteSucceeded, hnf]

theorem deleteOutcomes_length {σ : Type} (p : Provider σ) :
    ∀ (ks : List ResourceKey) (c : σ), (deleteOutcomes p c ks).length = ks.length := by
  intro ks
  induction ks with
  | nil => intro c; rfl
  | cons k rest ih => intro c; simp [deleteOutcomes, ih]

theorem successCount_le {σ : Type} (p : Provider σ) (ks : List ResourceKey) (c : σ) :
    successCount (deleteOutcomes p c ks) ≤ ks.length := by
  have h : List.countP deleteSucceeded (deleteOutcomes p c ks)
      ≤ (deleteOutcomes p c ks).length := List.countP_le_length _
  rw [deleteOutcomes_length] at h
  exact h

/-- The result of `deleteResources` is determined by the number of successes only. -/
theorem deleteResources_result {σ : Type} (p : Provider σ) (c : σ) (ks : List ResourceKey) :
    (deleteResources p c ks).result =
      if successCount (deleteOutcomes p c ks) = ks.length then none
      else some (.errorf ("unable to delete " ++
        fmtInt (ks.length - successCount (deleteOutcomes p c ks)) ++ " resources")) := by
  have hle := successCount_le p ks c
  have hcount := deleteLoop_count p ks c 0
  rw [Nat.zero_add] at hcount
  unfold deleteResources
  by_cases hlen : ks.length = 0
  · have hnil : ks = [] := List.length_eq_zero.mp hlen
    subst hnil
    simp [deleteOutcomes, successCount]
  · by_cases heq : successCount (deleteOutcomes p c ks) = ks.length
    · simp [hlen, hcount, heq]
    · have hlt : successCount (deleteOutcomes p c ks) < ks.length := by omega
      simp [hlen, hcount, heq, hlt]

theorem deleteLoop_run {σ : Type} (p : Provider σ) :
    ∀ (ks : List ResourceKey) (c : σ) (n : Nat),
      (deleteLoop p ks c n).1
        = (List.zipWith (fun k o => [Event.delete k, deleteReport k o]) ks
            (deleteOutcomes p c ks)).flatten ∧
      (deleteLoop p ks c n).2.1 = deleteFinalState p c ks := by
  intro ks
  induction ks with
  | nil => intro c n; simp [deleteLoop, deleteOutcomes, deleteFinalState]
  | cons k rest ih =>
    intro c n
    rcases hcall : p.Delete c k with ⟨c1, o⟩
    cases o with
    | none =>
      simp [deleteLoop, hcall, deleteOutcomes, deleteFinalState, deleteReport,
        (ih c1 (n + 1)).1, (ih c1 (n + 1)).2]
    | some err =>
      by_cases hnf : err.Is ErrNotFound = true
      · simp [deleteLoop, hcall, deleteOutcomes, deleteFinalState, deleteReport, hnf,
          (ih c1 (n + 1)).1, (ih c1 (n + 1)).2]
      · simp [deleteLoop, hcall, deleteOutcomes, deleteFinalState, deleteReport, hnf,
          (ih c1 n).1, (ih c1 n).2]

/-- C2: `deleteResources` is continue-on-error. `Delete` is called exactly once on every
key of the list, in list order, whatever the earlier calls returned: the recorded calls
are the key list, the cluster is left in the state reached by calling the client's
`Delete` on every key in order, and the events are, after the opening line, for each key
in order its `Delete` call followed by the report of what the client returned for it,
then the closing line. -/
theorem deleteResources_calls_every_key {σ : Type} (p : Provider σ) (c : σ)
    (ks : List ResourceKey) :
    deleteCalls (deleteResources p c ks).events = ks ∧
    (deleteResources p c ks).cluster = deleteFinalState p c ks ∧
    (deleteResources p c ks).events =
      if ks.length = 0 then [.log .info "No resources to delete" []]
      else
        .log .info "Start deleting %d resources" [.int ks.length] ::
          ((List.zipWith (fun k o => [Event.delete k, deleteReport k o]) ks
              (deleteOutcomes p c ks)).flatten ++
            [if successCount (deleteOutcomes p c ks) < ks.length then
               .log .info "Deleted %d/%d resources"
                 [.int (successCount (deleteOutcomes p c ks)), .int ks.length]
             else
               .log .success "Successfully deleted %d resources" [.int ks.length]]) := by
  have hrun := deleteLoop_run p ks c 0
  have hcount := deleteLoop_count p ks c 0
  rw [Nat.zero_add] at hcount
  refine ⟨?_, ?_, ?_⟩
  · unfold deleteResources
    by_cases hlen : ks.length = 0
    · have hnil : ks = [] := List.length_eq_zero.mp hlen
      subst hnil
      simp [deleteCalls]
    · simp only [hlen, if_false]
      split_ifs <;> simp [deleteCalls, deleteCalls_append, deleteLoop_calls]
  · unfold deleteResources
    by_cases hlen : ks.length = 0
    · have hnil : ks = [] := List.length_eq_zero.mp hlen
      subst hnil
      simp [deleteFinalState]
    · simp only [hlen, if_false]
      split_ifs <;> simp [hrun.2]
  · unfold deleteResources
    by_cases hlen : ks.length = 0
    · simp [hlen]
    · simp only [hlen, if_false, hcount, hrun.1]
      split_ifs <;> rfl

/-- C3: counting a nil result and an `ErrNotFound` result as successes, the result of
`deleteResources` is success when the success count equals the number of requested keys
and otherwise the one aggregate error built from the number of failures (it wraps no
client error); it is an error if and only if some `Delete` call returned an error that is
not `ErrNotFound`; the empty list gives success. -/
theorem deleteResources_aggregate {σ : Type} (p : Provider σ) (c : σ)
    (ks : List ResourceKey) :
    ((deleteResources p c ks).result =
      if successCount (deleteOutcomes p c ks) = ks.length then none
      else some (.errorf ("unable to delete " ++
        fmtInt (ks.length - successCount (deleteOutcomes p c ks)) ++ " resources"))) ∧
    ((deleteResources p c ks).result ≠ none ↔
      ∃ err, some err ∈ deleteOutcomes p c ks ∧ err.Is ErrNotFound = false) ∧
    (deleteResources p c []).result = none := by
  refine ⟨deleteResources_result p c ks, ?_, ?_⟩
  · rw [deleteResources_result]
    have hlen := deleteOutcomes_length p ks c
    have hiff : successCount (deleteOutcomes p c ks) = ks.length ↔
        ∀ o, o ∈ deleteOutcomes p c ks → deleteSucceeded o = true := by
      rw [← hlen]
      exact List.countP_eq_length
    constructor
    · intro hne
      have hcnt : ¬ successCount (deleteOutcomes p c ks) = ks.length := by
        intro h
        simp [h] at hne
      rw [hiff] at hcnt
      push_neg at hcnt
      obtain ⟨o, ho, hfail⟩ := hcnt
      cases o with
      | none => simp [deleteSucceeded] at hfail
      | some err =>
        refine ⟨err, ho, ?_⟩
        simpa [deleteSucceeded] using hfail
    · rintro ⟨err, hmem, hfail⟩
      have hcnt : ¬ successCount (deleteOutcomes p c ks) = ks.length := by
        rw [hiff]
        intro hall
        have := hall (some err) hmem
        simp [deleteSucceeded, hfail] at this
      simp [hcnt]
  · rfl

/-- C4 (as stated) fails: with the first resource deleted, the second already absent and
the third refused, the returned error reads "unable to delete 1 resources"; it is not the
text "1 of 3 resources failed to delete." and does not mention the total 3. -/
theorem deleteResources_error_text_counterexample :
    deleteOutcomes sampleProvider 0
        [mkKey "Service" "web", mkKey "ConfigMap" "absent", mkKey "Secret" "locked"]
      = [none, some ErrNotFound, some (.errorf "forbidden")] ∧
    (deleteResources sampleProvider 0
        [mkKey "Service" "web", mkKey "ConfigMap" "absent", mkKey "Secret" "locked"]).result
      = some (.errorf "unable to delete 1 resources") ∧
    (GoError.errorf "unable to delete 1 resources").Error
      ≠ "1 of 3 resources failed to delete." ∧
    '3' ∉ (GoError.errorf "unable to delete 1 resources").Error.toList := by
  refine ⟨by rfl, by rfl, by decide, by decide⟩

/-- C4 (amended): for three resources where the first `Delete` succeeds, the second
returns an `ErrNotFound` error and the third fails with any other error, `deleteResources`
counts 2 successes, logs "Deleted 2/3 resources" and returns the aggregate error whose
text is "unable to delete 1 resources". -/
theorem deleteResources_three_resources {σ : Type} (p : Provider σ) (c : σ)
    (k1 k2 k3 : ResourceKey) (e2 e3 : GoError)
    (hout : deleteOutcomes p c [k1, k2, k3] = [none, some e2, some e3])
    (h2 : e2.Is ErrNotFound = true) (h3 : e3.Is ErrNotFound = false) :
    successCount (deleteOutcomes p c [k1, k2, k3]) = 2 ∧
    (deleteResources p c [k1, k2, k3]).result
      = some (.errorf "unable to delete 1 resources") ∧
    (GoError.errorf "unable to delete 1 resources").Error = "unable to delete 1 resources" ∧
    Event.log .info "Deleted %d/%d resources" [.int 2, .int 3]
      ∈ (deleteResources p c [k1, k2, k3]).events := by
  have hcnt : successCount (deleteOutcomes p c [k1, k2, k3]) = 2 := by
    rw [hout]
    simp [successCount, deleteSucceeded, h2, h3]
  have hloop := deleteLoop_count p [k1, k2, k3] c 0
  rw [hcnt] at hloop
  refine ⟨hcnt, ?_, rfl, ?_⟩
  · rw [deleteResources_result, hcnt]
    simp only [List.length_cons, List.length_nil]
    rfl
  · unfold deleteResources
    simp [hloop]

/-- C4 (amended), at a concrete input. -/
theorem deleteResources_three_resources_witness :
    successCount (deleteOutcomes sampleProvider 0
      [mkKey "Service" "web", mkKey "ConfigMap" "absent", mkKey "Secret" "locked"]) = 2 ∧
    (deleteResources sampleProvider 0
      [mkKey "Service" "web", mkKey "ConfigMap" "absent", mkKey "Secret" "locked"]).result
      = some (.errorf "unable to delete 1 resources") ∧
    (GoError.errorf "unable to delete 1 resources").Error = "unable to delete 1 resources" ∧
    Event.log .info "Deleted %d/%d resources" [.int 2, .int 3]
      ∈ (deleteResources sampleProvider 0
        [mkKey "Service" "web", mkKey "ConfigMap" "absent", mkKey "Secret" "locked"]).events :=
  deleteResources_three_resources sampleProvider 0
    (mkKey "Service" "web") (mkKey "ConfigMap" "absent") (mkKey "Secret" "locked")
    ErrNotFound (.errorf "forbidden") (by rfl) (by rfl) (by rfl)

/-! ## Theorems: maps -/

theorem lookupField_setField_same {β : Type} (k : String) (v : β) (m : List (String × β)) :
    lookupField k (setField k v m) = some v := by
  induction m with
  | nil => simp [setField, lookupField]
  | cons kv rest ih =>
    obtain ⟨k1, v1⟩ := kv
    by_cases h : k1 = k
    · simp [setField, lookupField, h]
    · simp [setField, lookupField, h, ih]

theorem lookupField_setField_other {β : Type} (k k2 : String) (v : β) (m : List (String × β))
    (hne : k2 ≠ k) : lookupField k2 (setField k v m) = lookupField k2 m := by
  induction m with
  | nil => simp [setField, lookupField, Ne.symm hne]
  | cons kv rest ih =>
    obtain ⟨k1, v1⟩ := kv
    by_cases h : k1 = k
    · subst h
      simp [setField, lookupField, Ne.symm hne]
    · by_cases h2 : k1 = k2
      · subst h2
        simp [setField, lookupField, h]
      · simp [setField, lookupField, h, h2, ih]

/-! ## Theorems: variant manifest generator -/

theorem updateVolume_name (cmNames secretNames : List String) (nameSuffix : String)
    (v : Volume) : (updateVolume cmNames secretNames nameSuffix v).Name = v.Name := by
  rcases v with ⟨n, _ | cm, _ | s⟩ <;> simp only [updateVolume] <;>
    (repeat' split) <;> simp_all

theorem updateVolume_configMap (cmNames secretNames : List String) (nameSuffix : String)
    (v : Volume) :
    (updateVolume cmNames secretNames nameSuffix v).ConfigMap =
      match v.ConfigMap with
      | some cm =>
        if cm.Name ∈ cmNames then some { Name := makeSuffixedName cm.Name nameSuffix }
        else some cm
      | none => none := by
  rcases v with ⟨n, _ | cm, _ | s⟩ <;> simp only [updateVolume] <;>
    (repeat' split) <;> simp_all

theorem updateVolume_secret (cmNames secretNames : List String) (nameSuffix : String)
    (v : Volume) :
    (updateVolume cmNames secretNames nameSuffix v).Secret =
      match v.Secret with
      | some s =>
        if s.SecretName ∈ secretNames then
          some { SecretName := makeSuffixedName s.SecretName nameSuffix }
        else some s
      | none => none := by
  rcases v with ⟨n, _ | cm, _ | s⟩ <;> simp only [updateVolume] <;>
    (repeat' split) <;> simp_all

theorem mem_manifestNames (name : String) (ms : List Manifest) :
    name ∈ manifestNames ms ↔ ∃ c, c ∈ ms ∧ c.Key.Name = name := by
  simp [manifestNames]

theorem updateDeployment_of_selector (cmNames secretNames : List String)
    (variant nameSuffix : String) (replicasCalculator : Option (Option Int → Int))
    (d : Deployment) (sel : LabelSelector) (hsel : d.Spec.Selector = some sel) :
    updateDeployment cmNames secretNames variant nameSuffix replicasCalculator d
      = .returned
          { Name := makeSuffixedName d.Name nameSuffix,
            Spec :=
              { Replicas :=
                  (match replicasCalculator with
                   | some f => some (f d.Spec.Replicas)
                   | none => d.Spec.Replicas),
                Selector := some
                  { MatchLabels := some (setField variantLabel variant
                      (match sel.MatchLabels with
                       | none => []
                       | some entries => entries)),
                    MatchExpressions := sel.MatchExpressions },
                Template := updatePod cmNames secretNames variant nameSuffix
                  d.Spec.Template } } := by
  have hkey : variantLabel ≠ "" := by decide
  simp [updateDeployment, AddLabelToSelector, hsel, hkey]

theorem updateDeployment_of_nil_selector (cmNames secretNames : List String)
    (variant nameSuffix : String) (replicasCalculator : Option (Option Int → Int))
    (d : Deployment) (hsel : d.Spec.Selector = none) :
    updateDeployment cmNames secretNames variant nameSuffix replicasCalculator d
      = .panicked "invalid memory address or nil pointer dereference" := by
  have hkey : variantLabel ≠ "" := by decide
  simp [updateDeployment, AddLabelToSelector, hsel, hkey]

/-- What `updateDeployment` has done when it returns: the source Deployment carries a
selector, and the result is built from it. -/
theorem updateDeployment_returned (cmNames secretNames : List String)
    (variant nameSuffix : String) (replicasCalculator : Option (Option Int → Int))
    (d d1 : Deployment) :
    updateDeployment cmNames secretNames variant nameSuffix replicasCalculator d
      = .returned d1 →
    ∃ sel, d.Spec.Selector = some sel ∧
      d1 = { Name := makeSuffixedName d.Name nameSuffix,
             Spec :=
               { Replicas :=
                   (match replicasCalculator with
                    | some f => some (f d.Spec.Replicas)
                    | none => d.Spec.Replicas),
                 Selector := some
                   { MatchLabels := some (setField variantLabel variant
                       (match sel.MatchLabels with
                        | none => []
                        | some entries => entries)),
                     MatchExpressions := sel.MatchExpressions },
                 Template := updatePod cmNames secretNames variant nameSuffix
                   d.Spec.Template } } := by
  intro h
  cases hsel : d.Spec.Selector with
  | none =>
    rw [updateDeployment_of_nil_selector _ _ _ _ _ d hsel] at h
    cases h
  | some sel =>
    rw [updateDeployment_of_selector _ _ _ _ _ d sel hsel] at h
    exact ⟨sel, rfl, (GoCall.returned.inj h).symm⟩

theorem workloadLoop_complete (codec : Codec Deployment)
    (cmNames secretNames : List String) (variant nameSuffix : String)
    (replicasCalculator : Option (Option Int → Int)) :
    ∀ (ws acc : List Manifest),
      (∀ m, m ∈ ws → m.Key.Kind = KindDeployment ∧
        ∃ d d1 o, codec.ConvertToStructuredObject m = .ok d ∧
          updateDeployment cmNames secretNames variant nameSuffix replicasCalculator d
            = .returned d1 ∧
          codec.ParseFromStructuredObject d1 = .ok o) →
      ∃ outs, workloadLoop codec cmNames secretNames variant nameSuffix
          replicasCalculator ws acc = .returned (.ok (acc ++ outs)) ∧
        List.Forall₂ (fun m o => ∃ d d1, codec.ConvertToStructuredObject m = .ok d ∧
          updateDeployment cmNames secretNames variant nameSuffix replicasCalculator d
            = .returned d1 ∧
          codec.ParseFromStructuredObject d1 = .ok o) ws outs := by
  intro ws
  induction ws with
  | nil => intro acc _; exact ⟨[], by simp [workloadLoop], List.Forall₂.nil⟩
  | cons m rest ih =>
    intro acc hall
    obtain ⟨hkind, d, d1, o, hconv, hupd, hparse⟩ := hall m (List.mem_cons_self m rest)
    obtain ⟨outs, hloop, hrel⟩ :=
      ih (acc ++ [o]) (fun x hx => hall x (List.mem_cons_of_mem m hx))
    refine ⟨o :: outs, ?_, List.Forall₂.cons ⟨d, d1, hconv, hupd, hparse⟩ hrel⟩
    simp [workloadLoop, hkind, hconv, hupd, hparse, hloop]

/-- Whenever the loop returns a manifest list, every workload was a Deployment that
converted, was updated without panic and rendered, and the list holds the renderings in
input order after the manifests built before. -/
theorem workloadLoop_returned_ok (codec : Codec Deployment)
    (cmNames secretNames : List String) (variant nameSuffix : String)
    (replicasCalculator : Option (Option Int → Int)) :
    ∀ (ws acc out : List Manifest),
      workloadLoop codec cmNames secretNames variant nameSuffix replicasCalculator ws acc
        = .returned (.ok out) →
      ∃ outs, out = acc ++ outs ∧
        List.Forall₂ (fun m o => ∃ d d1, codec.ConvertToStructuredObject m = .ok d ∧
          updateDeployment cmNames secretNames variant nameSuffix replicasCalculator d
            = .returned d1 ∧
          codec.ParseFromStructuredObject d1 = .ok o) ws outs := by
  intro ws
  induction ws with
  | nil =>
    intro acc out h
    simp only [workloadLoop] at h
    have hout : acc = out := by
      cases h
      rfl
    exact ⟨[], by simp [hout], List.Forall₂.nil⟩
  | cons m rest ih =>
    intro acc out h
    simp only [workloadLoop] at h
    by_cases hkind : m.Key.Kind = KindDeployment
    · simp only [hkind, if_true] at h
      cases hconv : codec.ConvertToStructuredObject m with
      | error err =>
        rw [hconv] at h
        cases h
      | ok d =>
        rw [hconv] at h
        simp only at h
        cases hupd : updateDeployment cmNames secretNames variant nameSuffix
            replicasCalculator d with
        | panicked reason =>
          rw [hupd] at h
          cases h
        | returned d1 =>
          rw [hupd] at h
          simp only at h
          cases hparse : codec.ParseFromStructuredObject d1 with
          | error err =>
            rw [hparse] at h
            cases h
          | ok o =>
            rw [hparse] at h
            simp only at h
            obtain ⟨outs, hout, hrel⟩ := ih (acc ++ [o]) out h
            exact ⟨o :: outs, by simp [hout],
              List.Forall₂.cons ⟨d, d1, hconv, hupd, hparse⟩ hrel⟩
    · simp only [hkind, if_false] at h
      cases h

theorem updateDeployment_volume_refs (configmaps secrets : List Manifest)
    (variant nameSuffix : String) (replicasCalculator : Option (Option Int → Int))
    (d d1 : Deployment)
    (hupd : updateDeployment (manifestNames configmaps) (manifestNames secrets) variant
      nameSuffix replicasCalculator d = .returned d1) :
    d1.Spec.Template.Spec.Volumes.length = d.Spec.Template.Spec.Volumes.length ∧
    ∀ (i : Nat) (v : Volume), d.Spec.Template.Spec.Volumes[i]? = some v →
      ∃ v1, d1.Spec.Template.Spec.Volumes[i]? = some v1 ∧
        v1.Name = v.Name ∧
        (∀ cm, v.ConfigMap = some cm → (∃ c, c ∈ configmaps ∧ c.Key.Name = cm.Name) →
          v1.ConfigMap = some { Name := makeSuffixedName cm.Name nameSuffix }) ∧
        (∀ cm, v.ConfigMap = some cm → (¬ ∃ c, c ∈ configmaps ∧ c.Key.Name = cm.Name) →
          v1.ConfigMap = some cm) ∧
        (v.ConfigMap = none → v1.ConfigMap = none) ∧
        (∀ sec, v.Secret = some sec → (∃ c, c ∈ secrets ∧ c.Key.Name = sec.SecretName) →
          v1.Secret = some { SecretName := makeSuffixedName sec.SecretName nameSuffix }) ∧
        (∀ sec, v.Secret = some sec → (¬ ∃ c, c ∈ secrets ∧ c.Key.Name = sec.SecretName) →
          v1.Secret = some sec) ∧
        (v.Secret = none → v1.Secret = none) := by
  obtain ⟨sel, _, hd1⟩ := updateDeployment_returned _ _ _ _ _ d d1 hupd
  have hvols : d1.Spec.Template.Spec.Volumes
      = d.Spec.Template.Spec.Volumes.map
          (updateVolume (manifestNames configmaps) (manifestNames secrets) nameSuffix) := by
    rw [hd1]
    rfl
  rw [hvols]
  refine ⟨by simp, ?_⟩
  intro i v hv
  refine ⟨updateVolume (manifestNames configmaps) (manifestNames secrets) nameSuffix v,
    by simp [List.getElem?_map, hv], updateVolume_name _ _ _ v, ?_, ?_, ?_, ?_, ?_, ?_⟩
  · intro cm hcm hin
    rw [updateVolume_configMap, hcm]
    simp [(mem_manifestNames cm.Name configmaps).mpr hin]
  · intro cm hcm hout
    rw [updateVolume_configMap, hcm]
    have : cm.Name ∉ manifestNames configmaps := fun h =>
      hout ((mem_manifestNames cm.Name configmaps).mp h)
    simp [this]
  · intro hcm
    rw [updateVolume_configMap, hcm]
  · intro sec hsec hin
    rw [updateVolume_secret, hsec]
    simp [(mem_manifestNames sec.SecretName secrets).mpr hin]
  · intro sec hsec hout
    rw [updateVolume_secret, hsec]
    have : sec.SecretName ∉ manifestNames secrets := fun h =>
      hout ((mem_manifestNames sec.SecretName secrets).mp h)
    simp [this]
  · intro hsec
    rw [updateVolume_secret, hsec]

/-- C5: variant isolation. Whenever `generateVariantWorkloadManifests` returns a manifest
list, each generated workload is, in input order, the rendering of the typed Deployment
that `updateDeployment` returned for the workload, and in that Deployment the volumes are
as many as in the source and keep their names and positions; a volume's ConfigMap
reference named like one of the given ConfigMap manifests has become `makeSuffixedName`
of that name, a Secret reference named like one of the given Secret manifests likewise,
and every other reference is unchanged. The function does return such a list when every
workload is a Deployment that converts, is updated without panic (its selector is set)
and renders. -/
theorem generateVariantWorkloadManifests_volume_isolation (codec : Codec Deployment)
    (workloads configmaps secrets : List Manifest) (variant nameSuffix : String)
    (replicasCalculator : Option (Option Int → Int)) :
    ((∀ m, m ∈ workloads → m.Key.Kind = KindDeployment ∧
        ∃ d d1 o, codec.ConvertToStructuredObject m = .ok d ∧
          updateDeployment (manifestNames configmaps) (manifestNames secrets) variant
            nameSuffix replicasCalculator d = .returned d1 ∧
          codec.ParseFromStructuredObject d1 = .ok o) →
      ∃ out, generateVariantWorkloadManifests codec workloads configmaps secrets variant
          nameSuffix replicasCalculator = .returned (.ok out) ∧
        out.length = workloads.length) ∧
    (∀ out, generateVariantWorkloadManifests codec workloads configmaps secrets variant
        nameSuffix replicasCalculator = .returned (.ok out) →
      List.Forall₂ (fun m o => ∃ d d1, codec.ConvertToStructuredObject m = .ok d ∧
        updateDeployment (manifestNames configmaps) (manifestNames secrets) variant
          nameSuffix replicasCalculator d = .returned d1 ∧
        codec.ParseFromStructuredObject d1 = .ok o ∧
        d1.Spec.Template.Spec.Volumes.length = d.Spec.Template.Spec.Volumes.length ∧
        ∀ (i : Nat) (v : Volume), d.Spec.Template.Spec.Volumes[i]? = some v →
          ∃ v1, d1.Spec.Template.Spec.Volumes[i]? = some v1 ∧
            v1.Name = v.Name ∧
            (∀ cm, v.ConfigMap = some cm → (∃ c, c ∈ configmaps ∧ c.Key.Name = cm.Name) →
              v1.ConfigMap = some { Name := makeSuffixedName cm.Name nameSuffix }) ∧
            (∀ cm, v.ConfigMap = some cm →
              (¬ ∃ c, c ∈ configmaps ∧ c.Key.Name = cm.Name) → v1.ConfigMap = some cm) ∧
            (v.ConfigMap = none → v1.ConfigMap = none) ∧
            (∀ sec, v.Secret = some sec →
              (∃ c, c ∈ secrets ∧ c.Key.Name = sec.SecretName) →
              v1.Secret = some { SecretName := makeSuffixedName sec.SecretName nameSuffix }) ∧
            (∀ sec, v.Secret = some sec →
              (¬ ∃ c, c ∈ secrets ∧ c.Key.Name = sec.SecretName) → v1.Secret = some sec) ∧
            (v.Secret = none → v1.Secret = none)) workloads out) := by
  constructor
  · intro hall
    obtain ⟨outs, hloop, hrel⟩ := workloadLoop_complete codec
      (manifestNames configmaps) (manifestNames secrets) variant nameSuffix
      replicasCalculator workloads [] hall
    exact ⟨outs, by simpa [generateVariantWorkloadManifests] using hloop,
      hrel.length_eq.symm⟩
  · intro out hout
    obtain ⟨outs, hout1, hrel⟩ := workloadLoop_returned_ok codec
      (manifestNames configmaps) (manifestNames secrets) variant nameSuffix
      replicasCalculator workloads [] out hout
    have hsame : out = outs := by simpa using hout1
    subst hsame
    refine List.Forall₂.imp ?_ hrel
    rintro m o ⟨d, d1, hconv, hupd, hparse⟩
    obtain ⟨hlen, hvol⟩ := updateDeployment_volume_refs configmaps secrets variant
      nameSuffix replicasCalculator d d1 hupd
    exact ⟨d, d1, hconv, hupd, hparse, hlen, hvol⟩

/-- C5, at a concrete input: the Deployment "web" with the ConfigMap "web-cfg" and the
Secret "web-tls" of the application, suffix "canary". The volumes on "web-cfg" and
"web-tls" are rewired, the volume on the foreign ConfigMap "shared" is not. -/
theorem generateVariantWorkloadManifests_volume_isolation_witness :
    generateVariantWorkloadManifests sampleDeploymentCodec
        [mkManifest "Deployment" "web"] [mkManifest "ConfigMap" "web-cfg"]
        [mkManifest "Secret" "web-tls"] "canary" "canary" none
      = .returned (.ok [{ Key := mkKey "Deployment" "web-canary",
                          Body := [("metadata", .obj [("name", .str "web-canary")])] }]) ∧
    (∃ d1, updateDeployment (manifestNames [mkManifest "ConfigMap" "web-cfg"])
        (manifestNames [mkManifest "Secret" "web-tls"]) "canary" "canary" none
        webDeployment = .returned d1 ∧
      d1.Spec.Template.Spec.Volumes
        = [ { Name := "config", ConfigMap := some { Name := "web-cfg-canary" },
              Secret := none },
            { Name := "tls", ConfigMap := none,
              Secret := some { SecretName := "web-tls-canary" } },
            { Name := "shared", ConfigMap := some { Name := "shared" }, Secret := none } ]) ∧
    ∃ out, generateVariantWorkloadManifests sampleDeploymentCodec
        [mkManifest "Deployment" "web"] [mkManifest "ConfigMap" "web-cfg"]
        [mkManifest "Secret" "web-tls"] "canary" "canary" none = .returned (.ok out) ∧
      out.length = 1 := by
  refine ⟨by rfl, ⟨_, by rfl, by decide⟩, ?_⟩
  exact (generateVariantWorkloadManifests_volume_isolation sampleDeploymentCodec
    [mkManifest "Deployment" "web"] [mkManifest "ConfigMap" "web-cfg"]
    [mkManifest "Secret" "web-tls"] "canary" "canary" none).1
    (by
      intro m hm
      rw [List.mem_singleton] at hm
      subst hm
      exact ⟨by rfl, _, _, _, by rfl, by rfl, by rfl⟩)

/-- C9 evaluated at failing inputs. The manifest "legacy" converts to a Deployment
without selector. For the workloads "legacy" (a Deployment) and "db" (a StatefulSet)
`generateVariantWorkloadManifests` panics in `metav1.AddLabelToSelector` on the nil
selector of "legacy" and returns neither the "unsupported workload kind" error nor a
list; for "legacy" alone, a Deployment that converts, it panics and returns no manifest.
With the Deployment "web", which has a selector, before "db", and with "db" first, it
returns the "unsupported workload kind" error. -/
theorem generateVariantWorkloadManifests_kinds_at_failing_input :
    sampleDeploymentCodec.ConvertToStructuredObject (mkManifest "Deployment" "legacy")
      = .ok legacyDeployment ∧
    legacyDeployment.Spec.Selector = none ∧
    generateVariantWorkloadManifests sampleDeploymentCodec
        [mkManifest "Deployment" "legacy", mkManifest "StatefulSet" "db"] [] []
        "canary" "canary" none
      = .panicked "invalid memory address or nil pointer dereference" ∧
    generateVariantWorkloadManifests sampleDeploymentCodec
        [mkManifest "Deployment" "legacy"] [] [] "canary" "canary" none
      = .panicked "invalid memory address or nil pointer dereference" ∧
    generateVariantWorkloadManifests sampleDeploymentCodec
        [mkManifest "Deployment" "web", mkManifest "StatefulSet" "db"] [] []
        "canary" "canary" none
      = .returned (.error (.errorf "unsupported workload kind StatefulSet")) ∧
    generateVariantWorkloadManifests sampleDeploymentCodec
        [mkManifest "StatefulSet" "db", mkManifest "Deployment" "legacy"] [] []
        "canary" "canary" none
      = .returned (.error (.errorf "unsupported workload kind StatefulSet")) := by
  refine ⟨by rfl, by rfl, by rfl, by rfl, by rfl, by rfl⟩

theorem serviceLoop_complete (codec : Codec Service) (variant nameSuffix : String) :
    ∀ (services acc : List Manifest),
      (∀ m, m ∈ services → ∃ s o, codec.ConvertToStructuredObject m = .ok s ∧
        codec.ParseFromStructuredObject (updateService variant nameSuffix s) = .ok o) →
      ∃ outs, serviceLoop codec variant nameSuffix services acc = .ok (acc ++ outs) ∧
        List.Forall₂ (fun m o => ∃ s, codec.ConvertToStructuredObject m = .ok s ∧
          codec.ParseFromStructuredObject (updateService variant nameSuffix s) = .ok o)
          services outs := by
  intro services
  induction services with
  | nil => intro acc _; exact ⟨[], by simp [serviceLoop], List.Forall₂.nil⟩
  | cons m rest ih =>
    intro acc hall
    obtain ⟨s, o, hconv, hparse⟩ := hall m (List.mem_cons_self m rest)
    obtain ⟨outs, hloop, hrel⟩ :=
      ih (acc ++ [o]) (fun x hx => hall x (List.mem_cons_of_mem m hx))
    refine ⟨o :: outs, ?_, List.Forall₂.cons ⟨s, hconv, hparse⟩ hrel⟩
    simp [serviceLoop, hconv, hparse, hloop]

/-- C10: when every Service manifest converts and renders,
`generateVariantServiceManifests` returns, for each of them in order, the rendering of a
typed Service that is named `makeSuffixedName` of the source name, has type ClusterIP, has
a selector (created when the source has none) that maps the variant label to the variant
and agrees with the source selector on every other key, and has no external IP, an empty
load-balancer IP and no load-balancer source range. -/
theorem generateVariantServiceManifests_service (codec : Codec Service)
    (services : List Manifest) (variant nameSuffix : String)
    (hall : ∀ m, m ∈ services → ∃ s o, codec.ConvertToStructuredObject m = .ok s ∧
      codec.ParseFromStructuredObject (updateService variant nameSuffix s) = .ok o) :
    ∃ out, generateVariantServiceManifests codec services variant nameSuffix = .ok out ∧
      List.Forall₂ (fun m o => ∃ s s1, codec.ConvertToStructuredObject m = .ok s ∧
        s1 = updateService variant nameSuffix s ∧
        codec.ParseFromStructuredObject s1 = .ok o ∧
        s1.Name = makeSuffixedName s.Name nameSuffix ∧
        s1.Spec.ServiceType = ServiceTypeClusterIP ∧
        s1.Spec.Selector ≠ none ∧
        lookupLabel variantLabel s1.Spec.Selector = some variant ∧
        (∀ k, k ≠ variantLabel →
          lookupLabel k s1.Spec.Selector = lookupLabel k s.Spec.Selector) ∧
        s1.Spec.ExternalIPs = [] ∧
        s1.Spec.LoadBalancerIP = "" ∧
        s1.Spec.LoadBalancerSourceRanges = []) services out := by
  obtain ⟨outs, hloop, hrel⟩ := serviceLoop_complete codec variant nameSuffix services [] hall
  refine ⟨outs, by simpa [generateVariantServiceManifests] using hloop, ?_⟩
  refine List.Forall₂.imp ?_ hrel
  rintro m o ⟨s, hconv, hparse⟩
  refine ⟨s, _, hconv, rfl, hparse, rfl, rfl, ?_, ?_, ?_, rfl, rfl, rfl⟩
  · simp [updateService]
  · simp [updateService, lookupLabel, lookupField_setField_same]
  · intro k hk
    cases hsel : s.Spec.Selector with
    | none => simp [updateService, lookupLabel, hsel, setField, lookupField, Ne.symm hk]
    | some entries =>
      simp [updateService, lookupLabel, hsel, lookupField_setField_other _ _ _ _ hk]

/-- C10, at a concrete input: the LoadBalancer Service "web" with external addresses,
variant and suffix "canary". -/
theorem generateVariantServiceManifests_service_witness :
    updateService "canary" "canary" webService
      = { Name := "web-canary",
          Spec := { ServiceType := "ClusterIP",
                    Selector := some [("app", "web"), ("pipecd.dev/variant", "canary")],
                    ExternalIPs := [], LoadBalancerIP := "", LoadBalancerSourceRanges := [] } } ∧
    ∃ out, generateVariantServiceManifests sampleServiceCodec [mkManifest "Service" "web"]
        "canary" "canary" = .ok out ∧ out.length = 1 := by
  refine ⟨by decide, ?_⟩
  obtain ⟨out, hout, hrel⟩ := generateVariantServiceManifests_service sampleServiceCodec
    [mkManifest "Service" "web"] "canary" "canary"
    (by
      intro m hm
      rw [List.mem_singleton] at hm
      subst hm
      exact ⟨_, _, by rfl, by rfl⟩)
  exact ⟨out, hout, by simpa using hrel.length_eq.symm⟩

/-! ## Theorems: document accessors -/

theorem setField_of_lookupField {β : Type} (k : String) (v : β) (m : List (String × β))
    (h : lookupField k m = some v) : setField k v m = m := by
  induction m with
  | nil => simp [lookupField] at h
  | cons kv rest ih =>
    obtain ⟨k1, v1⟩ := kv
    by_cases hk : k1 = k
    · simp [lookupField, hk] at h
      simp [setField, hk, h]
    · simp [lookupField, hk] at h
      simp [setField, hk, ih h]

theorem Value.nested_build (x : Value) :
    ∀ (path : List String), (Value.build path x).nested path = .ok (some x) := by
  intro path
  induction path with
  | nil => simp [Value.build, Value.nested]
  | cons k rest ih => simp [Value.build, Value.nested, lookupField, ih]

theorem Value.nested_setNested (x : Value) :
    ∀ (path : List String) (v v1 : Value), v.setNested path x = .ok v1 →
      v1.nested path = .ok (some x) := by
  intro path
  induction path with
  | nil =>
    intro v v1 h
    simp [Value.setNested] at h
    subst h
    simp [Value.nested]
  | cons k rest ih =>
    intro v v1 h
    cases v with
    | obj fs =>
      simp only [Value.setNested] at h
      cases hl : lookupField k fs with
      | none =>
        simp [hl] at h
        subst h
        simp [Value.nested, lookupField_setField_same, Value.nested_build]
      | some child =>
        simp only [hl] at h
        cases hc : child.setNested rest x with
        | error err => simp [hc] at h
        | ok child1 =>
          simp [hc] at h
          subst h
          simp [Value.nested, lookupField_setField_same, ih child child1 hc]
    | _ => simp [Value.setNested] at h

theorem Value.setNested_of_nested (x : Value) :
    ∀ (path : List String) (v : Value), v.nested path = .ok (some x) →
      v.setNested path x = .ok v := by
  intro path
  induction path with
  | nil =>
    intro v h
    simp [Value.nested] at h
    simp [Value.setNested, h]
  | cons k rest ih =>
    intro v h
    cases v with
    | obj fs =>
      simp only [Value.nested] at h
      cases hl : lookupField k fs with
      | none => simp [hl] at h
      | some child =>
        simp only [hl] at h
        simp [Value.setNested, hl, ih child h, setField_of_lookupField k child fs hl]
    | _ => simp [Value.nested] at h

theorem Value.nested_setNested_sibling (a b c : String) (p q : List String) (hbc : b ≠ c)
    (x v v1 : Value) (h : v.setNested (a :: b :: p) x = .ok v1) :
    v1.nested (a :: c :: q) = v.nested (a :: c :: q) := by
  have hcb : c ≠ b := Ne.symm hbc
  cases v with
  | obj fs =>
    simp only [Value.setNested] at h
    cases hl : lookupField a fs with
    | none =>
      simp [hl] at h
      subst h
      simp [Value.nested, Value.build, lookupField_setField_same, hl, lookupField, hbc]
    | some child =>
      simp only [hl] at h
      cases hc : child.setNested (b :: p) x with
      | error err => simp [hc] at h
      | ok child1 =>
        simp [hc] at h
        subst h
        simp only [Value.nested, lookupField_setField_same, hl]
        cases child with
        | obj gs =>
          simp only [Value.setNested] at hc
          cases hg : lookupField b gs with
          | none =>
            simp [hg] at hc
            subst hc
            simp [Value.nested, lookupField_setField_other _ _ _ _ hcb]
          | some g =>
            simp only [hg] at hc
            cases hgs : g.setNested p x with
            | error err => simp [hgs] at hc
            | ok g1 =>
              simp [hgs] at hc
              subst hc
              simp [Value.nested, lookupField_setField_other _ _ _ _ hcb]
        | _ => simp [Value.setNested] at hc
  | _ => simp [Value.setNested] at h

theorem Value.setNested_obj (fs : List (String × Value)) (entries : List (String × String)) :
    ∀ (path : List String) (root : Value),
      (Value.obj fs).setNested path (encodeStringMap entries) = .ok root →
      Value.obj root.fields = root := by
  intro path root h
  cases path with
  | nil =>
    simp [Value.setNested] at h
    subst h
    simp [encodeStringMap, Value.fields]
  | cons k rest =>
    simp only [Value.setNested] at h
    cases hl : lookupField k fs with
    | none =>
      simp [hl] at h
      subst h
      simp [Value.fields]
    | some child =>
      simp only [hl] at h
      cases hc : child.setNested rest (encodeStringMap entries) with
      | error err => simp [hc] at h
      | ok child1 =>
        simp [hc] at h
        subst h
        simp [Value.fields]

theorem decodeStringMap_encode (entries : List (String × String)) :
    decodeStringMap (entries.map (fun kv => (kv.1, Value.str kv.2))) = some entries := by
  induction entries with
  | nil => simp [decodeStringMap]
  | cons kv rest ih =>
    obtain ⟨k, s⟩ := kv
    simp [decodeStringMap, ih]

theorem encode_of_decodeStringMap :
    ∀ (fs : List (String × Value)) (entries : List (String × String)),
      decodeStringMap fs = some entries → encodeStringMap entries = .obj fs := by
  intro fs
  induction fs with
  | nil =>
    intro entries h
    simp [decodeStringMap] at h
    subst h
    simp [encodeStringMap]
  | cons kv rest ih =>
    intro entries h
    obtain ⟨k, v⟩ := kv
    cases v with
    | str s =>
      simp only [decodeStringMap] at h
      cases hr : decodeStringMap rest with
      | none => simp [hr] at h
      | some es =>
        simp [hr] at h
        subst h
        have := ih es hr
        simp [encodeStringMap] at this ⊢
        exact this
    | _ => simp [decodeStringMap] at h

theorem GetNestedStringMap_some_nested (m : Manifest) (path : List String)
    (entries : List (String × String)) (h : m.GetNestedStringMap path = .ok (some entries)) :
    (Value.obj m.Body).nested path = .ok (some (encodeStringMap entries)) := by
  unfold Manifest.GetNestedStringMap at h
  cases hn : (Value.obj m.Body).nested path with
  | error err => simp [hn] at h
  | ok r =>
    cases r with
    | none => simp [hn] at h
    | some v =>
      cases v with
      | obj fs =>
        simp only [hn] at h
        cases hd : decodeStringMap fs with
        | none => simp [hd] at h
        | some es =>
          simp [hd] at h
          subst h
          rw [encode_of_decodeStringMap fs es hd]
      | _ => simp [hn] at h

theorem AddStringMapValues_get_same (m m1 : Manifest) (values : List (String × String))
    (path : List String) (h : m.AddStringMapValues values path = (m1, none)) :
    ∃ cur, m.GetNestedStringMap path = .ok cur ∧
      m1.GetNestedStringMap path = .ok (some (mergeStringMap cur values)) := by
  unfold Manifest.AddStringMapValues at h
  cases hget : m.GetNestedStringMap path with
  | error err => simp [hget] at h
  | ok cur =>
    simp only [hget] at h
    cases hset : (Value.obj m.Body).setNested path
        (encodeStringMap (mergeStringMap cur values)) with
    | error err => simp [hset] at h
    | ok root =>
      simp [hset] at h
      subst h
      refine ⟨cur, rfl, ?_⟩
      have hroot := Value.setNested_obj m.Body (mergeStringMap cur values) path root hset
      have hnest := Value.nested_setNested _ path _ root hset
      unfold Manifest.GetNestedStringMap
      simp only [hroot, hnest]
      simp [encodeStringMap, decodeStringMap_encode]

theorem AddStringMapValues_get_sibling (m m1 : Manifest) (values : List (String × String))
    (a b c : String) (p q : List String) (hbc : b ≠ c)
    (h : m.AddStringMapValues values (a :: b :: p) = (m1, none)) :
    m1.GetNestedStringMap (a :: c :: q) = m.GetNestedStringMap (a :: c :: q) := by
  unfold Manifest.AddStringMapValues at h
  cases hget : m.GetNestedStringMap (a :: b :: p) with
  | error err => simp [hget] at h
  | ok cur =>
    simp only [hget] at h
    cases hset : (Value.obj m.Body).setNested (a :: b :: p)
        (encodeStringMap (mergeStringMap cur values)) with
    | error err => simp [hset] at h
    | ok root =>
      simp [hset] at h
      subst h
      have hroot := Value.setNested_obj m.Body (mergeStringMap cur values) (a :: b :: p) root hset
      have hnest := Value.nested_setNested_sibling a b c p q hbc _ _ root hset
      unfold Manifest.GetNestedStringMap
      simp only [hroot, hnest]

theorem AddStringMapValues_noop (m : Manifest) (values : List (String × String))
    (path : List String) (entries : List (String × String))
    (hget : m.GetNestedStringMap path = .ok (some entries))
    (hmerge : mergeStringMap (some entries) values = entries) :
    m.AddStringMapValues values path = (m, none) := by
  have hnest := GetNestedStringMap_some_nested m path entries hget
  have hset := Value.setNested_of_nested _ path _ hnest
  unfold Manifest.AddStringMapValues
  simp [hget, hmerge, hset, Value.fields]

theorem lookupLabel_merge_variant (cur : Option (List (String × String))) (variant : String) :
    lookupLabel variantLabel (some (mergeStringMap cur [(variantLabel, variant)]))
      = some variant := by
  simp [mergeStringMap, lookupLabel, lookupField_setField_same]

theorem lookupLabel_merge_other (cur : Option (List (String × String))) (variant k : String)
    (hk : k ≠ variantLabel) :
    lookupLabel k (some (mergeStringMap cur [(variantLabel, variant)])) = lookupLabel k cur := by
  cases cur with
  | none => simp [mergeStringMap, lookupLabel, setField, lookupField, Ne.symm hk]
  | some entries =>
    simp [mergeStringMap, lookupLabel, lookupField_setField_other _ _ _ _ hk]

theorem mergeStringMap_merge_variant (cur : Option (List (String × String)))
    (variant : String) :
    mergeStringMap (some (mergeStringMap cur [(variantLabel, variant)]))
        [(variantLabel, variant)]
      = mergeStringMap cur [(variantLabel, variant)] := by
  have h := lookupLabel_merge_variant cur variant
  simp only [lookupLabel] at h
  simpa [mergeStringMap] using setField_of_lookupField variantLabel variant _ h

/-- What a successful `ensureVariantSelectorInWorkload` leaves at the two paths. -/
theorem ensureVariantSelectorInWorkload_shape (m m2 : Manifest) (variant : String)
    (h : ensureVariantSelectorInWorkload Manifest.AddStringMapValues m variant = (m2, none)) :
    ∃ cur1 cur2,
      m.GetNestedStringMap matchLabelsFields = .ok cur1 ∧
      m.GetNestedStringMap labelsFields = .ok cur2 ∧
      m2.GetNestedStringMap matchLabelsFields
        = .ok (some (mergeStringMap cur1 [(variantLabel, variant)])) ∧
      m2.GetNestedStringMap labelsFields
        = .ok (some (mergeStringMap cur2 [(variantLabel, variant)])) := by
  unfold ensureVariantSelectorInWorkload at h
  rcases h1 : m.AddStringMapValues [(variantLabel, variant)]
      ["spec", "selector", "matchLabels"] with ⟨m1, e1⟩
  cases e1 with
  | some err => simp [h1] at h
  | none =>
    simp only [h1] at h
    obtain ⟨cur1, hm, hm1⟩ := AddStringMapValues_get_same m m1 _ _ h1
    obtain ⟨cur2, hm1l, hm2l⟩ := AddStringMapValues_get_same m1 m2 _ _ h
    have hsib1 := AddStringMapValues_get_sibling m m1 _ "spec" "selector" "template"
      ["matchLabels"] ["metadata", "labels"] (by decide) h1
    have hsib2 := AddStringMapValues_get_sibling m1 m2 _ "spec" "template" "selector"
      ["metadata", "labels"] ["matchLabels"] (by decide) h
    refine ⟨cur1, cur2, hm, ?_, ?_, hm2l⟩
    · rw [labelsFields, ← hsib1]
      exact hm1l
    · rw [matchLabelsFields, hsib2]
      exact hm1

/-! ## Theorems: selector invariant guard -/

theorem checkVariantSelectorInWorkload_eq_none
    (getNestedStringMap :
      Manifest → List String → Except GoError (Option (List (String × String))))
    (m : Manifest) (variant : String) :
    checkVariantSelectorInWorkload getNestedStringMap m variant = none ↔
      ∃ matchLabels labels,
        getNestedStringMap m matchLabelsFields = .ok matchLabels ∧
        getNestedStringMap m labelsFields = .ok labels ∧
        lookupLabel variantLabel matchLabels = some variant ∧
        lookupLabel variantLabel labels = some variant := by
  unfold checkVariantSelectorInWorkload
  cases h1 : getNestedStringMap m matchLabelsFields with
  | error err => simp
  | ok matchLabels =>
    cases h2 : lookupLabel variantLabel matchLabels with
    | none => simp [h2]
    | some a =>
      by_cases ha : a = variant
      · subst ha
        cases h3 : getNestedStringMap m labelsFields with
        | error err => simp [h2]
        | ok labels =>
          cases h4 : lookupLabel variantLabel labels with
          | none => simp [h2, h4]
          | some b =>
            by_cases hb : b = a
            · subst hb
              simp [h2, h4]
            · simp [h2, h4, hb]
      · simp [h2, ha]

/-- C6: `checkVariantSelectorInWorkload` succeeds if and only if both
`spec.selector.matchLabels` and `spec.template.metadata.labels` are read without error
and each maps the variant label to the expected variant; it fails when the key is absent
or different in the first map, when it is absent or different in the second map, and
whenever the two maps carry different values for the key. -/
theorem checkVariantSelectorInWorkload_iff
    (getNestedStringMap :
      Manifest → List String → Except GoError (Option (List (String × String))))
    (m : Manifest) (variant : String) :
    (checkVariantSelectorInWorkload getNestedStringMap m variant = none ↔
      ∃ matchLabels labels,
        getNestedStringMap m matchLabelsFields = .ok matchLabels ∧
        getNestedStringMap m labelsFields = .ok labels ∧
        lookupLabel variantLabel matchLabels = some variant ∧
        lookupLabel variantLabel labels = some variant) ∧
    (∀ matchLabels, getNestedStringMap m matchLabelsFields = .ok matchLabels →
      lookupLabel variantLabel matchLabels ≠ some variant →
      checkVariantSelectorInWorkload getNestedStringMap m variant ≠ none) ∧
    (∀ labels, getNestedStringMap m labelsFields = .ok labels →
      lookupLabel variantLabel labels ≠ some variant →
      checkVariantSelectorInWorkload getNestedStringMap m variant ≠ none) ∧
    (∀ matchLabels labels a b,
      getNestedStringMap m matchLabelsFields = .ok matchLabels →
      getNestedStringMap m labelsFields = .ok labels →
      lookupLabel variantLabel matchLabels = some a →
      lookupLabel variantLabel labels = some b → a ≠ b →
      checkVariantSelectorInWorkload getNestedStringMap m variant ≠ none) := by
  have hiff := checkVariantSelectorInWorkload_eq_none getNestedStringMap m variant
  refine ⟨hiff, ?_, ?_, ?_⟩
  · intro matchLabels hget hne hnone
    obtain ⟨ml, l, h1, _, h3, _⟩ := hiff.mp hnone
    rw [hget] at h1
    cases h1
    exact hne h3
  · intro labels hget hne hnone
    obtain ⟨ml, l, _, h2, _, h4⟩ := hiff.mp hnone
    rw [hget] at h2
    cases h2
    exact hne h4
  · intro matchLabels labels a b hget1 hget2 ha hb hab hnone
    obtain ⟨ml, l, h1, h2, h3, h4⟩ := hiff.mp hnone
    rw [hget1] at h1
    rw [hget2] at h2
    cases h1
    cases h2
    rw [ha] at h3
    rw [hb] at h4
    cases h3
    cases h4
    exact hab rfl

/-- C6, at concrete inputs: a workload labelled "canary" at both paths passes for
"canary"; a workload whose selector lacks the key, and a workload whose two paths say
"canary" and "baseline", are rejected. -/
theorem checkVariantSelectorInWorkload_iff_witness :
    checkVariantSelectorInWorkload Manifest.GetNestedStringMap canaryWorkload "canary" = none ∧
    checkVariantSelectorInWorkload Manifest.GetNestedStringMap plainWorkload "primary" ≠ none ∧
    checkVariantSelectorInWorkload Manifest.GetNestedStringMap mixedWorkload "canary" ≠ none ∧
    checkVariantSelectorInWorkload Manifest.GetNestedStringMap mixedWorkload "baseline"
      ≠ none :=
  ⟨(checkVariantSelectorInWorkload_iff Manifest.GetNestedStringMap canaryWorkload
      "canary").1.mpr ⟨_, _, by rfl, by rfl, by rfl, by rfl⟩,
   (checkVariantSelectorInWorkload_iff Manifest.GetNestedStringMap plainWorkload
      "primary").2.1 (some [("app", "web")]) (by rfl) (by decide),
   (checkVariantSelectorInWorkload_iff Manifest.GetNestedStringMap mixedWorkload
      "canary").2.2.2 (some [("pipecd.dev/variant", "canary")])
      (some [("pipecd.dev/variant", "baseline")]) "canary" "baseline"
      (by rfl) (by rfl) (by rfl) (by rfl) (by decide),
   (checkVariantSelectorInWorkload_iff Manifest.GetNestedStringMap mixedWorkload
      "baseline").2.2.2 (some [("pipecd.dev/variant", "canary")])
      (some [("pipecd.dev/variant", "baseline")]) "canary" "baseline"
      (by rfl) (by rfl) (by rfl) (by rfl) (by decide)⟩

/-- C7 (as stated) fails: on a document whose `spec.selector.matchLabels` is a string,
`ensureVariantSelectorInWorkload` returns an error, and `checkVariantSelectorInWorkload`
on the document it leaves fails as well. -/
theorem ensure_fails_on_malformed_counterexample :
    (ensureVariantSelectorInWorkload Manifest.AddStringMapValues malformedWorkload "canary").2
      = some (.errorf "accessor error: spec.selector.matchLabels is not a map") ∧
    checkVariantSelectorInWorkload Manifest.GetNestedStringMap
      (ensureVariantSelectorInWorkload Manifest.AddStringMapValues malformedWorkload
        "canary").1 "canary" ≠ none := by
  refine ⟨by rfl, by decide⟩

/-- C7 (amended): whenever `ensureVariantSelectorInWorkload` succeeds on a manifest,
`checkVariantSelectorInWorkload` with the same variant succeeds on the resulting
document, whatever the two paths held before. -/
theorem ensure_then_check (m : Manifest) (variant : String)
    (hok : (ensureVariantSelectorInWorkload Manifest.AddStringMapValues m variant).2 = none) :
    checkVariantSelectorInWorkload Manifest.GetNestedStringMap
      (ensureVariantSelectorInWorkload Manifest.AddStringMapValues m variant).1 variant
      = none := by
  rcases hens : ensureVariantSelectorInWorkload Manifest.AddStringMapValues m variant
    with ⟨m2, e⟩
  rw [hens] at hok
  simp only at hok
  subst hok
  obtain ⟨cur1, cur2, _, _, h1, h2⟩ := ensureVariantSelectorInWorkload_shape m m2 variant hens
  exact (checkVariantSelectorInWorkload_eq_none Manifest.GetNestedStringMap m2 variant).mpr
    ⟨_, _, h1, h2, lookupLabel_merge_variant cur1 variant,
      lookupLabel_merge_variant cur2 variant⟩

/-- C7 (amended), at concrete inputs: on a document without `spec`, and on a document
whose pod template already carries the variant "primary", injection of "canary"
succeeds and validation of "canary" then passes. -/
theorem ensure_then_check_witness :
    ((ensureVariantSelectorInWorkload Manifest.AddStringMapValues emptyWorkload "canary").2
        = none ∧
      checkVariantSelectorInWorkload Manifest.GetNestedStringMap
        (ensureVariantSelectorInWorkload Manifest.AddStringMapValues emptyWorkload
          "canary").1 "canary" = none) ∧
    ((ensureVariantSelectorInWorkload Manifest.AddStringMapValues plainWorkload "canary").2
        = none ∧
      checkVariantSelectorInWorkload Manifest.GetNestedStringMap
        (ensureVariantSelectorInWorkload Manifest.AddStringMapValues plainWorkload
          "canary").1 "canary" = none) :=
  ⟨⟨by rfl, ensure_then_check emptyWorkload "canary" (by rfl)⟩,
   ⟨by rfl, ensure_then_check plainWorkload "canary" (by rfl)⟩⟩

/-- C8: `ensureVariantSelectorInWorkload` is idempotent and additive. After a successful
application, a second application with the same variant succeeds and returns the same
document, and at both paths every key other than the variant label reads as it did
before the first application. -/
theorem ensure_idempotent_additive (m : Manifest) (variant : String)
    (hok : (ensureVariantSelectorInWorkload Manifest.AddStringMapValues m variant).2 = none) :
    ensureVariantSelectorInWorkload Manifest.AddStringMapValues
        (ensureVariantSelectorInWorkload Manifest.AddStringMapValues m variant).1 variant
      = ((ensureVariantSelectorInWorkload Manifest.AddStringMapValues m variant).1, none) ∧
    (∃ before after,
      m.GetNestedStringMap matchLabelsFields = .ok before ∧
      (ensureVariantSelectorInWorkload Manifest.AddStringMapValues m
        variant).1.GetNestedStringMap matchLabelsFields = .ok after ∧
      ∀ k, k ≠ variantLabel → lookupLabel k after = lookupLabel k before) ∧
    (∃ before after,
      m.GetNestedStringMap labelsFields = .ok before ∧
      (ensureVariantSelectorInWorkload Manifest.AddStringMapValues m
        variant).1.GetNestedStringMap labelsFields = .ok after ∧
      ∀ k, k ≠ variantLabel → lookupLabel k after = lookupLabel k before) := by
  rcases hens : ensureVariantSelectorInWorkload Manifest.AddStringMapValues m variant
    with ⟨m2, e⟩
  rw [hens] at hok
  simp only at hok
  subst hok
  obtain ⟨cur1, cur2, hb1, hb2, h1, h2⟩ := ensureVariantSelectorInWorkload_shape m m2 variant hens
  refine ⟨?_, ⟨cur1, _, hb1, h1, fun k hk => lookupLabel_merge_other cur1 variant k hk⟩,
    ⟨cur2, _, hb2, h2, fun k hk => lookupLabel_merge_other cur2 variant k hk⟩⟩
  have hadd1 := AddStringMapValues_noop m2 [(variantLabel, variant)] matchLabelsFields _ h1
    (mergeStringMap_merge_variant cur1 variant)
  have hadd2 := AddStringMapValues_noop m2 [(variantLabel, variant)] labelsFields _ h2
    (mergeStringMap_merge_variant cur2 variant)
  simp only [matchLabelsFields] at hadd1
  simp only [labelsFields] at hadd2
  simp [ensureVariantSelectorInWorkload, hadd1, hadd2]

/-- C8, at a concrete input: the document whose pod template carries the variant
"primary"; the label "app" keeps its value "web" at both paths. -/
theorem ensure_idempotent_additive_witness :
    ensureVariantSelectorInWorkload Manifest.AddStringMapValues
        (ensureVariantSelectorInWorkload Manifest.AddStringMapValues plainWorkload
          "canary").1 "canary"
      = ((ensureVariantSelectorInWorkload Manifest.AddStringMapValues plainWorkload
          "canary").1, none) ∧
    (ensureVariantSelectorInWorkload Manifest.AddStringMapValues plainWorkload
        "canary").1.GetNestedStringMap labelsFields
      = .ok (some [("app", "web"), ("pipecd.dev/variant", "canary")]) :=
  ⟨(ensure_idempotent_additive plainWorkload "canary" (by rfl)).1, by rfl⟩

/-! ## Theorems: workload labels and replicas -/

theorem updatePod_labels (cmNames secretNames : List String) (variant nameSuffix : String)
    (pod : PodTemplateSpec) :
    (updatePod cmNames secretNames variant nameSuffix pod).Labels ≠ none ∧
    lookupLabel variantLabel (updatePod cmNames secretNames variant nameSuffix pod).Labels
      = some variant ∧
    ∀ k, k ≠ variantLabel →
      lookupLabel k (updatePod cmNames secretNames variant nameSuffix pod).Labels
        = lookupLabel k pod.Labels := by
  refine ⟨by simp [updatePod], by simp [updatePod, lookupLabel, lookupField_setField_same], ?_⟩
  intro k hk
  cases hl : pod.Labels with
  | none => simp [updatePod, lookupLabel, hl, setField, lookupField, Ne.symm hk]
  | some entries => simp [updatePod, lookupLabel, hl, lookupField_setField_other _ _ _ _ hk]

/-- C11 evaluated at a failing input. The manifest "legacy" converts to a Deployment
whose selector pointer is nil. `updateDeployment` hands that pointer to
`metav1.AddLabelToSelector`, which panics on it, so `generateVariantWorkloadManifests`
panics and produces no workload whose selector `matchLabels` map the variant label to
"canary". The sibling paths do create what is absent: `updatePod` creates nil pod
labels, `updateService` creates a nil Service selector, and the library call creates nil
`MatchLabels` of a selector that is set. -/
theorem generateVariantWorkloadManifests_nil_selector_at_failing_input :
    sampleDeploymentCodec.ConvertToStructuredObject (mkManifest "Deployment" "legacy")
      = .ok legacyDeployment ∧
    legacyDeployment.Spec.Selector = none ∧
    updateDeployment [] [] "canary" "canary" none legacyDeployment
      = .panicked "invalid memory address or nil pointer dereference" ∧
    generateVariantWorkloadManifests sampleDeploymentCodec
        [mkManifest "Deployment" "legacy"] [] [] "canary" "canary" none
      = .panicked "invalid memory address or nil pointer dereference" ∧
    (updatePod [] [] "canary" "canary" { Labels := none, Spec := { Volumes := [] } }).Labels
      = some [("pipecd.dev/variant", "canary")] ∧
    (updateService "canary" "canary"
        { webService with Spec := { webService.Spec with Selector := none } }).Spec.Selector
      = some [("pipecd.dev/variant", "canary")] ∧
    AddLabelToSelector (some { MatchLabels := none, MatchExpressions := [] })
        "pipecd.dev/variant" "canary"
      = .returned (some { MatchLabels := some [("pipecd.dev/variant", "canary")],
                          MatchExpressions := [] }) ∧
    updateDeployment [] [] "canary" "canary" none webDeployment
      = .returned
          { Name := "web-canary",
            Spec :=
              { Replicas := some 3,
                Selector := some
                  { MatchLabels := some [("app", "web"), ("pipecd.dev/variant", "canary")],
                    MatchExpressions := [] },
                Template :=
                  { Labels := some [("app", "web"), ("tier", "front"),
                      ("pipecd.dev/variant", "canary")],
                    Spec := webDeployment.Spec.Template.Spec } } } := by
  refine ⟨by rfl, by rfl, by rfl, by rfl, by rfl, by rfl, by rfl, by rfl⟩

/-- C12: whenever `generateVariantWorkloadManifests` returns a manifest list, each
generated workload is, in input order, the rendering of the typed Deployment that
`updateDeployment` returned for the workload, whose replica field is the value of the
replicas calculator on the source's replica field (passed as it is, nil included) when a
calculator is supplied, and the source's replica field (nil included) when none is. The
function does return such a list when every workload is a Deployment that converts, is
updated without panic (its selector is set) and renders. -/
theorem generateVariantWorkloadManifests_replicas (codec : Codec Deployment)
    (workloads configmaps secrets : List Manifest) (variant nameSuffix : String)
    (replicasCalculator : Option (Option Int → Int)) :
    ((∀ m, m ∈ workloads → m.Key.Kind = KindDeployment ∧
        ∃ d d1 o, codec.ConvertToStructuredObject m = .ok d ∧
          updateDeployment (manifestNames configmaps) (manifestNames secrets) variant
            nameSuffix replicasCalculator d = .returned d1 ∧
          codec.ParseFromStructuredObject d1 = .ok o) →
      ∃ out, generateVariantWorkloadManifests codec workloads configmaps secrets variant
          nameSuffix replicasCalculator = .returned (.ok out) ∧
        out.length = workloads.length) ∧
    (∀ out, generateVariantWorkloadManifests codec workloads configmaps secrets variant
        nameSuffix replicasCalculator = .returned (.ok out) →
      List.Forall₂ (fun m o => ∃ d d1, codec.ConvertToStructuredObject m = .ok d ∧
        updateDeployment (manifestNames configmaps) (manifestNames secrets) variant
          nameSuffix replicasCalculator d = .returned d1 ∧
        codec.ParseFromStructuredObject d1 = .ok o ∧
        (∀ f, replicasCalculator = some f → d1.Spec.Replicas = some (f d.Spec.Replicas)) ∧
        (replicasCalculator = none → d1.Spec.Replicas = d.Spec.Replicas)) workloads out) := by
  constructor
  · intro hall
    obtain ⟨outs, hloop, hrel⟩ := workloadLoop_complete codec
      (manifestNames configmaps) (manifestNames secrets) variant nameSuffix
      replicasCalculator workloads [] hall
    exact ⟨outs, by simpa [generateVariantWorkloadManifests] using hloop,
      hrel.length_eq.symm⟩
  · intro out hout
    obtain ⟨outs, hout1, hrel⟩ := workloadLoop_returned_ok codec
      (manifestNames configmaps) (manifestNames secrets) variant nameSuffix
      replicasCalculator workloads [] out hout
    have hsame : out = outs := by simpa using hout1
    subst hsame
    refine List.Forall₂.imp ?_ hrel
    rintro m o ⟨d, d1, hconv, hupd, hparse⟩
    obtain ⟨sel, _, hd1⟩ := updateDeployment_returned _ _ _ _ _ d d1 hupd
    refine ⟨d, d1, hconv, hupd, hparse, ?_, ?_⟩
    · intro f hf
      subst hf
      rw [hd1]
    · intro hnone
      subst hnone
      rw [hd1]

/-- C12, at concrete inputs: the Deployment "web" with 3 replicas and a calculator that
returns 1 for a set field and 7 for nil; the same Deployment without replica field; no
calculator. -/
theorem generateVariantWorkloadManifests_replicas_witness :
    (∃ d1, updateDeployment [] [] "canary" "canary"
        (some (fun r => match r with
          | some _ => 1
          | none => 7)) webDeployment = .returned d1 ∧ d1.Spec.Replicas = some 1) ∧
    (∃ d1, updateDeployment [] [] "canary" "canary"
        (some (fun r => match r with
          | some _ => 1
          | none => 7))
        { webDeployment with Spec := { webDeployment.Spec with Replicas := none } }
        = .returned d1 ∧ d1.Spec.Replicas = some 7) ∧
    (∃ d1, updateDeployment [] [] "canary" "canary" none
        { webDeployment with Spec := { webDeployment.Spec with Replicas := none } }
        = .returned d1 ∧ d1.Spec.Replicas = none) ∧
    ∃ out, generateVariantWorkloadManifests sampleDeploymentCodec
        [mkManifest "Deployment" "web"] [] [] "canary" "canary" (some (fun _ => 1))
        = .returned (.ok out) ∧ out.length = 1 := by
  refine ⟨⟨_, by rfl, by decide⟩, ⟨_, by rfl, by decide⟩, ⟨_, by rfl, by decide⟩, ?_⟩
  exact (generateVariantWorkloadManifests_replicas sampleDeploymentCodec
    [mkManifest "Deployment" "web"] [] [] "canary" "canary" (some (fun _ => 1))).1
    (by
      intro m hm
      rw [List.mem_singleton] at hm
      subst hm
      exact ⟨by rfl, _, _, _, by rfl, by rfl, by rfl⟩)

/-! ## Theorems: duplication and selector functions -/

theorem duplicateManifests_eq_map (duplicate : Manifest → String → Manifest)
    (nameSuffix : String) :
    ∀ (ms : List Manifest), duplicateManifests duplicate ms nameSuffix
      = ms.map (fun m => duplicateManifest duplicate m nameSuffix) := by
  intro ms
  induction ms with
  | nil => rfl
  | cons m rest ih => simp [duplicateManifests, ih]

/-- C13: duplication identity. For every implementation of `Duplicate`,
`duplicateManifest` asks for the duplicate named `m.Key.Name + "-" + s` when the suffix
`s` is not empty and named `m.Key.Name` when it is empty, and `duplicateManifests`
returns the duplicates of the input manifests, one per manifest in input order. With
`Duplicate` as the spec describes it, the key name and the document name of the
duplicate are both that name and the rest of the key is unchanged. -/
theorem duplicateManifest_name (duplicate : Manifest → String → Manifest) (m : Manifest)
    (nameSuffix : String) (ms : List Manifest) :
    (nameSuffix ≠ "" →
      duplicateManifest duplicate m nameSuffix
        = duplicate m (m.Key.Name ++ "-" ++ nameSuffix)) ∧
    duplicateManifest duplicate m "" = duplicate m m.Key.Name ∧
    duplicateManifests duplicate ms nameSuffix
      = ms.map (fun x => duplicate x (makeSuffixedName x.Key.Name nameSuffix)) ∧
    (duplicateManifests duplicate ms nameSuffix).length = ms.length ∧
    (duplicateManifest Manifest.Duplicate m nameSuffix).Key
      = { m.Key with Name := makeSuffixedName m.Key.Name nameSuffix } ∧
    (duplicateManifest Manifest.Duplicate m nameSuffix).documentName
      = some (makeSuffixedName m.Key.Name nameSuffix) := by
  refine ⟨?_, ?_, ?_, ?_, rfl, ?_⟩
  · intro hne
    simp [duplicateManifest, makeSuffixedName, hne]
  · simp [duplicateManifest, makeSuffixedName]
  · rw [duplicateManifests_eq_map]
    rfl
  · rw [duplicateManifests_eq_map]
    simp
  · simp [duplicateManifest, Manifest.Duplicate, Manifest.documentName,
      lookupField_setField_same]

/-- C13, at concrete inputs: the duplicate of the workload "web" for the suffix "canary"
is named "web-canary" in its key and in its document; with the empty suffix the name
stays "web". -/
theorem duplicateManifest_name_witness :
    duplicateManifest Manifest.Duplicate plainWorkload "canary"
      = Manifest.Duplicate plainWorkload "web-canary" ∧
    (duplicateManifest Manifest.Duplicate plainWorkload "canary").Key.Name = "web-canary" ∧
    (duplicateManifest Manifest.Duplicate plainWorkload "canary").documentName
      = some "web-canary" ∧
    (duplicateManifest Manifest.Duplicate plainWorkload "").Key.Name = "web" := by
  refine ⟨?_, by rfl, by rfl, by rfl⟩
  exact (duplicateManifest_name Manifest.Duplicate plainWorkload "canary" []).1 (by decide)

theorem findManifests_eq_filter (kind name : String) :
    ∀ (ms : List Manifest), findManifests kind name ms
      = ms.filter (fun m =>
          decide (m.Key.Kind = kind) && (decide (name = "") || decide (m.Key.Name = name))) := by
  intro ms
  induction ms with
  | nil => rfl
  | cons m rest ih =>
    by_cases hk : m.Key.Kind = kind
    · by_cases hn : name = ""
      · subst hn
        have ih1 := ih
        simp only [decide_True, Bool.true_or, Bool.and_true] at ih1
        simp [findManifests, List.filter, hk, ih1]
      · by_cases hm : m.Key.Name = name
        · simp [findManifests, List.filter, hk, hn, hm, ih]
        · simp [findManifests, List.filter, hk, hn, hm, ih]
    · simp [findManifests, List.filter, hk, ih]

theorem findManifests_sublist (kind name : String) (ms : List Manifest) :
    List.Sublist (findManifests kind name ms) ms := by
  rw [findManifests_eq_filter]
  exact List.filter_sublist ms

theorem mem_findManifests (kind name : String) (ms : List Manifest) (m : Manifest) :
    m ∈ findManifests kind name ms ↔
      m ∈ ms ∧ m.Key.Kind = kind ∧ (name = "" ∨ m.Key.Name = name) := by
  rw [findManifests_eq_filter]
  simp [List.mem_filter]

/-- C14: `findManifests` is an order-preserving filter. Its result is the list of the
input manifests, in input order and with input multiplicity, whose kind is the given
kind and whose name is the given name when that name is not empty; it is a sublist of the
input, and it is empty when no manifest matches. -/
theorem findManifests_filter (kind name : String) (ms : List Manifest) :
    findManifests kind name ms
      = ms.filter (fun m =>
          decide (m.Key.Kind = kind) && (decide (name = "") || decide (m.Key.Name = name))) ∧
    List.Sublist (findManifests kind name ms) ms ∧
    ((∀ m, m ∈ ms → ¬ (m.Key.Kind = kind ∧ (name = "" ∨ m.Key.Name = name))) →
      findManifests kind name ms = []) := by
  refine ⟨findManifests_eq_filter kind name ms, findManifests_sublist kind name ms, ?_⟩
  intro hnone
  apply List.eq_nil_iff_forall_not_mem.mpr
  intro m hm
  obtain ⟨hin, hkind, hname⟩ := (mem_findManifests kind name ms m).mp hm
  exact hnone m hin ⟨hkind, hname⟩

/-- C14, at concrete inputs: the Deployments of the sample set in their order, the one
Deployment named "api", and no StatefulSet. -/
theorem findManifests_filter_witness :
    findManifests "Deployment" "" sampleManifests
      = [mkManifest "Deployment" "web", mkManifest "Deployment" "api"] ∧
    findManifests "Deployment" "api" sampleManifests = [mkManifest "Deployment" "api"] ∧
    findManifests "StatefulSet" "" sampleManifests = [] := by
  refine ⟨by rfl, by rfl, ?_⟩
  apply (findManifests_filter "StatefulSet" "" sampleManifests).2.2
  intro m hm
  simp only [sampleManifests, List.mem_cons, List.mem_singleton, List.not_mem_nil,
    or_false] at hm
  rcases hm with h | h | h | h <;> subst h <;> simp [mkManifest, mkKey]

theorem workloadRefLoop_eq (manifests : List Manifest) :
    ∀ (refs : List K8sResourceReference) (workloads : List Manifest),
      workloadRefLoop manifests refs workloads
        = workloads ++ (refs.map (fun ref =>
            findManifests (referenceKind ref) ref.Name manifests)).flatten := by
  intro refs
  induction refs with
  | nil => intro workloads; simp [workloadRefLoop]
  | cons ref rest ih =>
    intro workloads
    simp [workloadRefLoop, ih, List.append_assoc]

theorem findWorkloadManifests_of_refs (manifests : List Manifest)
    (refs : List K8sResourceReference) (hrefs : refs ≠ []) :
    findWorkloadManifests manifests refs
      = (refs.map (fun ref =>
          findManifests (referenceKind ref) ref.Name manifests)).flatten := by
  have hlen : refs.length ≠ 0 := fun h => hrefs (List.length_eq_zero.mp h)
  simp [findWorkloadManifests, hlen, workloadRefLoop_eq]

/-- C15 (as stated) fails: the reference with an empty kind and an empty name selects
the Deployment "web", whose name is not the reference's name. -/
theorem findWorkloadManifests_empty_name_counterexample :
    findWorkloadManifests sampleManifests [{ Kind := "", Name := "" }]
      = [mkManifest "Deployment" "web", mkManifest "Deployment" "api"] ∧
    mkManifest "Deployment" "web"
      ∈ findWorkloadManifests sampleManifests [{ Kind := "", Name := "" }] ∧
    ¬ ∃ ref, ref ∈ [({ Kind := "", Name := "" } : K8sResourceReference)] ∧
        (mkManifest "Deployment" "web").Key.Kind
          = (if ref.Kind = "" then "Deployment" else ref.Kind) ∧
        (mkManifest "Deployment" "web").Key.Name = ref.Name := by
  refine ⟨by rfl, ?_, ?_⟩
  · have h : findWorkloadManifests sampleManifests [{ Kind := "", Name := "" }]
        = [mkManifest "Deployment" "web", mkManifest "Deployment" "api"] := by rfl
    rw [h]
    exact List.mem_cons_self _ _
  · rintro ⟨ref, hmem, _, hname⟩
    rw [List.mem_singleton] at hmem
    subst hmem
    revert hname
    decide

/-- C15 (amended): with an empty reference list `findWorkloadManifests` returns all
manifests of kind Deployment; with a non-empty reference list a manifest is in the result
if and only if it is in the input and some reference matches it, where a reference
matches a manifest when the manifest's kind is the reference's kind (Deployment when the
reference's kind is empty) and the reference's name is empty or is the manifest's name. -/
theorem findWorkloadManifests_selects (manifests : List Manifest)
    (refs : List K8sResourceReference) :
    (refs = [] →
      findWorkloadManifests manifests refs
        = manifests.filter (fun m => decide (m.Key.Kind = KindDeployment))) ∧
    (refs ≠ [] → ∀ m, m ∈ findWorkloadManifests manifests refs ↔
      m ∈ manifests ∧ ∃ ref, ref ∈ refs ∧
        m.Key.Kind = (if ref.Kind ≠ "" then ref.Kind else KindDeployment) ∧
        (ref.Name = "" ∨ m.Key.Name = ref.Name)) := by
  constructor
  · intro hnil
    subst hnil
    simp [findWorkloadManifests, findManifests_eq_filter]
  · intro hrefs m
    rw [findWorkloadManifests_of_refs manifests refs hrefs]
    simp only [List.mem_flatten, List.mem_map]
    constructor
    · rintro ⟨l, ⟨ref, href, rfl⟩, hm⟩
      obtain ⟨hin, hkind, hname⟩ := (mem_findManifests _ _ _ _).mp hm
      exact ⟨hin, ref, href, hkind, hname⟩
    · rintro ⟨hin, ref, href, hkind, hname⟩
      exact ⟨_, ⟨ref, href, rfl⟩, (mem_findManifests _ _ _ _).mpr ⟨hin, hkind, hname⟩⟩

/-- C15 (amended), at concrete inputs: no reference selects both Deployments; the
reference to "api" selects the Deployment "api" and not the Deployment "web". -/
theorem findWorkloadManifests_selects_witness :
    findWorkloadManifests sampleManifests []
      = sampleManifests.filter (fun m => decide (m.Key.Kind = KindDeployment)) ∧
    mkManifest "Deployment" "api"
      ∈ findWorkloadManifests sampleManifests [{ Kind := "", Name := "api" }] ∧
    mkManifest "Deployment" "web"
      ∉ findWorkloadManifests sampleManifests [{ Kind := "", Name := "api" }] := by
  refine ⟨(findWorkloadManifests_selects sampleManifests []).1 rfl, ?_, ?_⟩
  · exact ((findWorkloadManifests_selects sampleManifests
      [{ Kind := "", Name := "api" }]).2 (by simp) (mkManifest "Deployment" "api")).mpr
      ⟨by simp [sampleManifests], { Kind := "", Name := "api" }, by simp, by decide,
        Or.inr (by rfl)⟩
  · intro hmem
    obtain ⟨_, ref, href, _, hname⟩ := ((findWorkloadManifests_selects sampleManifests
      [{ Kind := "", Name := "api" }]).2 (by simp) (mkManifest "Deployment" "web")).mp hmem
    rw [List.mem_singleton] at href
    subst href
    revert hname
    decide

/-- C16 (as stated) fails: references given in the order "api", "web" select the two
Deployments in that order, which is not their order in the input, and a reference given
twice selects its Deployment twice; neither result is a sublist of the input. -/
theorem findWorkloadManifests_order_counterexample :
    findWorkloadManifests sampleManifests
        [{ Kind := "", Name := "api" }, { Kind := "Deployment", Name := "web" }]
      = [mkManifest "Deployment" "api", mkManifest "Deployment" "web"] ∧
    ¬ List.Sublist
        (findWorkloadManifests sampleManifests
          [{ Kind := "", Name := "api" }, { Kind := "Deployment", Name := "web" }])
        sampleManifests ∧
    findWorkloadManifests sampleManifests
        [{ Kind := "", Name := "api" }, { Kind := "", Name := "api" }]
      = [mkManifest "Deployment" "api", mkManifest "Deployment" "api"] ∧
    ¬ List.Sublist
        (findWorkloadManifests sampleManifests
          [{ Kind := "", Name := "api" }, { Kind := "", Name := "api" }])
        sampleManifests := by
  have h1 : findWorkloadManifests sampleManifests
        [{ Kind := "", Name := "api" }, { Kind := "Deployment", Name := "web" }]
      = [mkManifest "Deployment" "api", mkManifest "Deployment" "web"] := by rfl
  have h2 : findWorkloadManifests sampleManifests
        [{ Kind := "", Name := "api" }, { Kind := "", Name := "api" }]
      = [mkManifest "Deployment" "api", mkManifest "Deployment" "api"] := by rfl
  refine ⟨h1, ?_, h2, ?_⟩
  · rw [h1]
    intro hsub
    have hnames := hsub.map (fun m => m.Key.Name)
    revert hnames
    decide
  · rw [h2]
    intro hsub
    have hnames := hsub.map (fun m => m.Key.Name)
    revert hnames
    decide

/-- C16 (amended): with an empty reference list, and with a single reference, the result
of `findWorkloadManifests` is a sublist of the input manifest set; with any non-empty
reference list it is the concatenation, in reference order, of one sublist of the input
per reference (the manifests of the reference's kind, Deployment when empty, and of the
reference's name, any name when empty), and every manifest of the result is a manifest
of the input. -/
theorem findWorkloadManifests_order (manifests : List Manifest)
    (refs : List K8sResourceReference) :
    (refs.length ≤ 1 → List.Sublist (findWorkloadManifests manifests refs) manifests) ∧
    (refs ≠ [] →
      findWorkloadManifests manifests refs
        = (refs.map (fun ref => findManifests
            (if ref.Kind ≠ "" then ref.Kind else KindDeployment) ref.Name manifests)).flatten) ∧
    (∀ ref : K8sResourceReference, List.Sublist
      (findManifests (if ref.Kind ≠ "" then ref.Kind else KindDeployment) ref.Name manifests)
      manifests) ∧
    (∀ m, m ∈ findWorkloadManifests manifests refs → m ∈ manifests) := by
  have hseg : ∀ ref : K8sResourceReference, List.Sublist
      (findManifests (if ref.Kind ≠ "" then ref.Kind else KindDeployment) ref.Name manifests)
      manifests := fun ref => findManifests_sublist _ _ _
  have hrefs : refs ≠ [] →
      findWorkloadManifests manifests refs
        = (refs.map (fun ref => findManifests
            (if ref.Kind ≠ "" then ref.Kind else KindDeployment) ref.Name manifests)).flatten :=
    fun h => findWorkloadManifests_of_refs manifests refs h
  refine ⟨?_, hrefs, hseg, ?_⟩
  · intro hlen
    match refs, hlen, hrefs with
    | [], _, _ =>
      simp only [findWorkloadManifests, List.length_nil, if_true]
      exact findManifests_sublist _ _ _
    | [ref], _, h =>
      rw [h (by simp)]
      simpa using hseg ref
    | _ :: _ :: _, hlen, _ => simp at hlen
  · intro m hm
    by_cases hnil : refs = []
    · subst hnil
      simp only [findWorkloadManifests, List.length_nil, if_true] at hm
      exact ((mem_findManifests _ _ _ _).mp hm).1
    · rw [hrefs hnil] at hm
      simp only [List.mem_flatten, List.mem_map] at hm
      obtain ⟨l, ⟨ref, _, rfl⟩, hm⟩ := hm
      exact ((mem_findManifests _ _ _ _).mp hm).1

/-- C16 (amended), at concrete inputs: the single reference to "web" gives a sublist of
the sample set; the references "api", "web" give the two segments in reference order. -/
theorem findWorkloadManifests_order_witness :
    List.Sublist
      (findWorkloadManifests sampleManifests [{ Kind := "", Name := "web" }])
      sampleManifests ∧
    findWorkloadManifests sampleManifests
        [{ Kind := "", Name := "api" }, { Kind := "Deployment", Name := "web" }]
      = ([{ Kind := "", Name := "api" }, { Kind := "Deployment", Name := "web" }].map
          (fun ref : K8sResourceReference => findManifests
            (if ref.Kind ≠ "" then ref.Kind else KindDeployment) ref.Name
            sampleManifests)).flatten :=
  ⟨(findWorkloadManifests_order sampleManifests [{ Kind := "", Name := "web" }]).1
      (by decide),
   (findWorkloadManifests_order sampleManifests
      [{ Kind := "", Name := "api" }, { Kind := "Deployment", Name := "web" }]).2.1
      (by simp)⟩

/-! ## Theorems: manifest loading -/

/-- C17 evaluated at a failing input: the commit "c2" is deployed from "/work/repo" and
the running commit "c1" is checked out at "/work/running". On a cache miss
`loadRunningManifests` calls a manifest source whose repository directory is the
checkout of the running commit but whose application directory is "/work/repo/app", in
the working checkout, not "/work/running/app"; it returns the manifests rendered there
and stores them under the running commit "c1". -/
theorem loadRunningManifests_appDir_at_failing_input :
    (loadCalls (loadRunningManifests listCache sampleSource sampleJoin sampleExecutor
        [] 0).events).map (fun cfg => (cfg.AppDir, cfg.RepoDir))
      = [("/work/repo/app", "/work/running")] ∧
    sampleJoin sampleExecutor.RunningRepoDir sampleExecutor.GitPath = "/work/running/app" ∧
    (sampleSource (executeProvider sampleJoin
        { sampleExecutor with RepoDir := "/work/running" }) 0).2
      = .ok [mkManifest "Deployment" "web"] ∧
    (loadRunningManifests listCache sampleSource sampleJoin sampleExecutor [] 0).result
      = .ok [mkManifest "ConfigMap" "web-cfg", mkManifest "Deployment" "web"] ∧
    listCache.Get
        (loadRunningManifests listCache sampleSource sampleJoin sampleExecutor [] 0).cache
        "app-1" "c1"
      = some [mkManifest "ConfigMap" "web-cfg", mkManifest "Deployment" "web"] := by
  refine ⟨by rfl, by decide, by rfl, by rfl, by rfl⟩

/-- C18: with an empty running commit hash `loadRunningManifests` returns the error
"unable to determine running commit", whatever the cache holds and whatever the manifest
source would do; it emits no event (no cache read, no cache write, no call of the
manifest source) and leaves the cache and the manifest source as they were. -/
theorem loadRunningManifests_no_running_commit {ι κ σ : Type} (cache : ManifestsCache κ)
    (source : ProviderConfig ι → σ → σ × Except GoError (List Manifest))
    (filepathJoin : String → String → String) (e : ExecutorInput ι) (k : κ) (s : σ)
    (hempty : e.RunningCommitHash = "") :
    loadRunningManifests cache source filepathJoin e k s
      = { events := [], cache := k, source := s,
          result := .error (.errorf "unable to determine running commit") } := by
  simp [loadRunningManifests, hempty]

/-- C18, at a concrete input: a first deployment, with a cache that already holds an
entry for the application. -/
theorem loadRunningManifests_no_running_commit_witness :
    loadRunningManifests listCache sampleSource sampleJoin firstDeployExecutor
        [(("app-1", "c0"), [mkManifest "Deployment" "web"])] 0
      = { events := [], cache := [(("app-1", "c0"), [mkManifest "Deployment" "web"])],
          source := 0,
          result := .error (.errorf "unable to determine running commit") } :=
  loadRunningManifests_no_running_commit listCache sampleSource sampleJoin
    firstDeployExecutor [(("app-1", "c0"), [mkManifest "Deployment" "web"])] 0 (by rfl)

/-- C19: `loadManifests` returns the cache entry of (application id, triggering commit
hash) when there is one, without calling the manifest source; on a miss it calls the
manifest source once and, when the load fails, returns its error and leaves the cache
unchanged; when the load succeeds it returns the loaded set and puts it in the cache
under the same key, after which, the cache returning what was put, a second
`loadManifests` returns the same set and does not call the manifest source. -/
theorem loadManifests_cache {ι κ σ : Type} (cache : ManifestsCache κ)
    (source : ProviderConfig ι → σ → σ × Except GoError (List Manifest))
    (e : ExecutorInput ι) (provider : ProviderConfig ι) (k : κ) (s : σ) :
    (∀ ms, cache.Get k e.ApplicationId e.TriggerCommitHash = some ms →
      loadManifests cache source e provider k s
        = { events := [.cacheGet e.ApplicationId e.TriggerCommitHash],
            cache := k, source := s, result := .ok ms }) ∧
    (∀ s1 err, cache.Get k e.ApplicationId e.TriggerCommitHash = none →
      source provider s = (s1, .error err) →
      loadManifests cache source e provider k s
        = { events := [.cacheGet e.ApplicationId e.TriggerCommitHash,
                       .loadManifests provider],
            cache := k, source := s1, result := .error err }) ∧
    (∀ s1 ms, cache.Get k e.ApplicationId e.TriggerCommitHash = none →
      source provider s = (s1, .ok ms) →
      loadManifests cache source e provider k s
        = { events := [.cacheGet e.ApplicationId e.TriggerCommitHash,
                       .loadManifests provider,
                       .cachePut e.ApplicationId e.TriggerCommitHash ms],
            cache := cache.Put k e.ApplicationId e.TriggerCommitHash ms,
            source := s1, result := .ok ms } ∧
      (cache.Get (cache.Put k e.ApplicationId e.TriggerCommitHash ms)
          e.ApplicationId e.TriggerCommitHash = some ms →
        loadManifests cache source e provider
            (loadManifests cache source e provider k s).cache
            (loadManifests cache source e provider k s).source
          = { events := [.cacheGet e.ApplicationId e.TriggerCommitHash],
              cache := cache.Put k e.ApplicationId e.TriggerCommitHash ms,
              source := s1, result := .ok ms })) := by
  refine ⟨?_, ?_, ?_⟩
  · intro ms hget
    simp [loadManifests, hget]
  · intro s1 err hget hload
    simp [loadManifests, hget, hload]
  · intro s1 ms hget hload
    have hfirst : loadManifests cache source e provider k s
        = { events := [.cacheGet e.ApplicationId e.TriggerCommitHash,
                       .loadManifests provider,
                       .cachePut e.ApplicationId e.TriggerCommitHash ms],
            cache := cache.Put k e.ApplicationId e.TriggerCommitHash ms,
            source := s1, result := .ok ms } := by
      simp [loadManifests, hget, hload]
    refine ⟨hfirst, ?_⟩
    intro hlaw
    rw [hfirst]
    simp [loadManifests, hlaw]

/-- C19, at a concrete input: an empty cache; the first `loadManifests` renders the
working checkout and stores the set under ("app-1", "c2"), the second one is served from
the cache and the manifest source has still been called once. -/
theorem loadManifests_cache_witness :
    (loadManifests listCache sampleSource sampleExecutor
        (executeProvider sampleJoin sampleExecutor) [] 0).result
      = .ok [mkManifest "ConfigMap" "web-cfg", mkManifest "Deployment" "web"] ∧
    loadManifests listCache sampleSource sampleExecutor
        (executeProvider sampleJoin sampleExecutor)
        (loadManifests listCache sampleSource sampleExecutor
          (executeProvider sampleJoin sampleExecutor) [] 0).cache
        (loadManifests listCache sampleSource sampleExecutor
          (executeProvider sampleJoin sampleExecutor) [] 0).source
      = { events := [.cacheGet "app-1" "c2"],
          cache := [(("app-1", "c2"),
            [mkManifest "ConfigMap" "web-cfg", mkManifest "Deployment" "web"])],
          source := 1,
          result := .ok [mkManifest "ConfigMap" "web-cfg", mkManifest "Deployment" "web"] } :=
  ⟨by rfl,
   ((loadManifests_cache listCache sampleSource sampleExecutor
      (executeProvider sampleJoin sampleExecutor) [] 0).2.2 1
      [mkManifest "ConfigMap" "web-cfg", mkManifest "Deployment" "web"]
      (by rfl) (by rfl)).2 (by rfl)⟩

/-! ## Theorems: cancellation -/

theorem GoError.Is_canceled_not_notFound (err : GoError) (h : err.Is ErrCanceled = true) :
    err.Is ErrNotFound = false := by
  induction err with
  | sentinel name =>
    simp only [GoError.Is, ErrCanceled, decide_eq_true_eq] at h
    rw [h]
    decide
  | errorf msg => simp [GoError.Is, ErrCanceled] at h
  | wrapf msg inner ih =>
    simp only [GoError.Is, ErrCanceled, Bool.or_eq_true, decide_eq_true_eq] at h
    rcases h with h | h
    · cases h
    · have hinner := ih (by simpa [ErrCanceled] using h)
      simp only [ErrNotFound] at hinner
      simp [GoError.Is, ErrNotFound, hinner]

/-- C20 (as stated) fails: with a context cancelled after the first call, the second
`Delete` returns `context.Canceled`, and `deleteResources` still issues `Delete` for the
third resource key. -/
theorem deleteResources_after_cancel_counterexample :
    deleteOutcomes cancellingProvider 0
        [mkKey "Service" "web", mkKey "Deployment" "web", mkKey "ConfigMap" "web-cfg"]
      = [none, some ErrCanceled, some ErrCanceled] ∧
    deleteCalls (deleteResources cancellingProvider 0
        [mkKey "Service" "web", mkKey "Deployment" "web", mkKey "ConfigMap" "web-cfg"]).events
      = [mkKey "Service" "web", mkKey "Deployment" "web", mkKey "ConfigMap" "web-cfg"] := by
  refine ⟨by rfl, by rfl⟩

/-- C20 (amended): a cancellation does not stop the delete loop. When some `Delete` call
returns an error that is `context.Canceled`, `deleteResources` has still called `Delete`
on every key of the list, in order, and it returns the aggregate error, the cancelled
call being counted as a failed deletion. -/
theorem deleteResources_ignores_cancellation {σ : Type} (p : Provider σ) (c : σ)
    (ks : List ResourceKey) (i : Nat) (err : GoError)
    (hout : (deleteOutcomes p c ks)[i]? = some (some err))
    (hcancel : err.Is ErrCanceled = true) :
    deleteCalls (deleteResources p c ks).events = ks ∧
    successCount (deleteOutcomes p c ks) < ks.length ∧
    (deleteResources p c ks).result
      = some (.errorf ("unable to delete " ++
          fmtInt (ks.length - successCount (deleteOutcomes p c ks)) ++ " resources")) := by
  have hmem : some err ∈ deleteOutcomes p c ks := List.getElem?_mem hout
  have hfail : deleteSucceeded (some err) = false := by
    simpa [deleteSucceeded] using GoError.Is_canceled_not_notFound err hcancel
  have hne : successCount (deleteOutcomes p c ks) ≠ ks.length := by
    intro heq
    rw [← deleteOutcomes_length p ks c] at heq
    have hall := List.countP_eq_length.mp heq (some err) hmem
    rw [hfail] at hall
    cases hall
  have hle := successCount_le p ks c
  refine ⟨?_, by omega, ?_⟩
  · unfold deleteResources
    by_cases hlen : ks.length = 0
    · have hnil : ks = [] := List.length_eq_zero.mp hlen
      subst hnil
      simp [deleteCalls]
    · simp only [hlen, if_false]
      split_ifs <;> simp [deleteCalls, deleteCalls_append, deleteLoop_calls]
  · rw [deleteResources_result]
    simp [hne]

/-- C20 (amended), at a concrete input: the second of three `Delete` calls returns
`context.Canceled`; all three keys are called and two deletions are reported failed. -/
theorem deleteResources_ignores_cancellation_witness :
    deleteCalls (deleteResources cancellingProvider 0
        [mkKey "Service" "web", mkKey "Deployment" "web", mkKey "ConfigMap" "web-cfg"]).events
      = [mkKey "Service" "web", mkKey "Deployment" "web", mkKey "ConfigMap" "web-cfg"] ∧
    (deleteResources cancellingProvider 0
        [mkKey "Service" "web", mkKey "Deployment" "web", mkKey "ConfigMap" "web-cfg"]).result
      = some (.errorf "unable to delete 2 resources") := by
  obtain ⟨hcalls, _, _⟩ := deleteResources_ignores_cancellation cancellingProvider 0
    [mkKey "Service" "web", mkKey "Deployment" "web", mkKey "ConfigMap" "web-cfg"] 1
    ErrCanceled (by rfl) (by rfl)
  exact ⟨hcalls, by rfl⟩

end Kubernetes
